import Mathlib

/-!
Verification development for the libstoragemgmt python corpus:

* `src/lsm/lsm/transport.py` — the length-prefixed JSON wire transport
  (`Transport.__readAll`, `__sendMsg`, `__recvMsg`, `send_req`, `read_req`,
  `rpc`, `send_error`, `send_resp`, `read_resp`);
* `src/lsm/lsm/_iplugin.py` — the capability-gated plugin interface whose
  default method bodies raise `NO_SUPPORT`;
* `src/test/plugin_test.py` — the client-side job polling loop
  (`TestProxy.wait_for_it`);
* `src/plugin/hpsa/utils.py` — the `cmd_exec` command helper.

Python strings are modelled as `List Char` (the wire text is pure ASCII
because `json.dumps` defaults to `ensure_ascii=True`, so one `Char` stands
for one wire byte).  Python `int` is `Int`/`Nat` (unbounded, as in python).
The socket is modelled as the list of byte groups successive `recv` calls
deliver; an exhausted list makes `recv` return zero bytes, which is exactly
how a closed peer appears to `Transport.__readAll`.
-/

namespace Lsm

/-- Python strings, one `Char` per character. -/
abbrev Str := List Char

/-! ### Decimal digit strings: `str(n)` for a python non-negative int -/

/-- The decimal digit character for `d` (`d ≤ 9`). -/
def digitCh : Nat → Char
  | 0 => '0' | 1 => '1' | 2 => '2' | 3 => '3' | 4 => '4'
  | 5 => '5' | 6 => '6' | 7 => '7' | 8 => '8' | _ => '9'

/-- ASCII decimal digit test. -/
def isDig (c : Char) : Bool := 48 ≤ c.toNat && c.toNat ≤ 57

/-- Digits of `n`, most significant first, prepended to `acc`; `fuel > n`
suffices for the recursion to finish. -/
def natToDecAux : Nat → Nat → Str → Str
  | 0, _, acc => acc
  | fuel + 1, n, acc =>
    if n = 0 then acc else natToDecAux fuel (n / 10) (digitCh (n % 10) :: acc)

/-- Digits of `n`, most significant first; empty for `n = 0`. -/
def decDigits (n : Nat) : Str := natToDecAux (n + 1) n []

/-- `str(n)` for a python non-negative int. -/
def natToDec (n : Nat) : Str := if n = 0 then ['0'] else decDigits n

/-- Numeric value of a decimal digit string (as read left to right). -/
def decVal (s : Str) : Nat := s.foldl (fun a c => a * 10 + (c.toNat - 48)) 0

theorem digitCh_toNat {d : Nat} (h : d < 10) : (digitCh d).toNat = 48 + d := by
  interval_cases d <;> rfl

theorem digitCh_isDig {d : Nat} (h : d < 10) : isDig (digitCh d) = true := by
  interval_cases d <;> rfl

theorem natToDecAux_append : ∀ (fuel n : Nat) (acc : Str),
    natToDecAux fuel n acc = natToDecAux fuel n [] ++ acc := by
  intro fuel
  induction fuel with
  | zero => intro n acc; rfl
  | succ f ih =>
    intro n acc
    by_cases h : n = 0
    · simp [natToDecAux, h]
    · simp only [natToDecAux, if_neg h]
      rw [ih (n / 10) (digitCh (n % 10) :: acc), ih (n / 10) [digitCh (n % 10)]]
      simp

theorem natToDecAux_fuel : ∀ (n : Nat), ∀ (f1 f2 : Nat), n < f1 → n < f2 →
    natToDecAux f1 n [] = natToDecAux f2 n [] := by
  intro n
  induction n using Nat.strong_induction_on with
  | _ n ih =>
    intro f1 f2 h1 h2
    match f1, h1 with
    | f1 + 1, _ =>
      match f2, h2 with
      | f2 + 1, _ =>
        by_cases h : n = 0
        · simp [natToDecAux, h]
        · simp only [natToDecAux, if_neg h]
          rw [natToDecAux_append f1, natToDecAux_append f2]
          have hlt : n / 10 < n := Nat.div_lt_self (Nat.pos_of_ne_zero h) (by omega)
          rw [ih (n / 10) hlt f1 f2 (by omega) (by omega)]

theorem decDigits_zero : decDigits 0 = [] := rfl

theorem decDigits_succ {n : Nat} (h : n ≠ 0) :
    decDigits n = decDigits (n / 10) ++ [digitCh (n % 10)] := by
  have hlt : n / 10 < n := Nat.div_lt_self (Nat.pos_of_ne_zero h) (by omega)
  unfold decDigits
  conv_lhs => rw [natToDecAux, if_neg h]
  rw [natToDecAux_append n, natToDecAux_fuel (n / 10) n (n / 10 + 1) (by omega) (by omega)]

theorem decVal_append_digit (s : Str) (c : Char) :
    decVal (s ++ [c]) = decVal s * 10 + (c.toNat - 48) := by
  simp [decVal, List.foldl_append]

theorem decVal_decDigits : ∀ n : Nat, decVal (decDigits n) = n := by
  intro n
  induction n using Nat.strong_induction_on with
  | _ n ih =>
    by_cases h : n = 0
    · simp [h, decDigits_zero, decVal]
    · have hlt : n / 10 < n := Nat.div_lt_self (Nat.pos_of_ne_zero h) (by omega)
      rw [decDigits_succ h, decVal_append_digit, ih (n / 10) hlt,
        digitCh_toNat (Nat.mod_lt _ (by omega))]
      omega

theorem decDigits_length_le : ∀ (n k : Nat), n < 10 ^ k → (decDigits n).length ≤ k := by
  intro n
  induction n using Nat.strong_induction_on with
  | _ n ih =>
    intro k hk
    by_cases h : n = 0
    · simp [h, decDigits_zero]
    · match k with
      | 0 => omega
      | k + 1 =>
        have hlt : n / 10 < n := Nat.div_lt_self (Nat.pos_of_ne_zero h) (by omega)
        rw [decDigits_succ h]
        have hdiv : n / 10 < 10 ^ k := by
          rw [Nat.div_lt_iff_lt_mul (by omega : 0 < 10)]
          calc n < 10 ^ (k + 1) := hk
            _ = 10 ^ k * 10 := pow_succ 10 k
        have := ih (n / 10) hlt k hdiv
        simp only [List.length_append, List.length_cons, List.length_nil]
        omega

theorem decDigits_ne_nil {n : Nat} (h : n ≠ 0) : decDigits n ≠ [] := by
  rw [decDigits_succ h]; simp

theorem decDigits_all_dig : ∀ n : Nat, ∀ c ∈ decDigits n, isDig c = true := by
  intro n
  induction n using Nat.strong_induction_on with
  | _ n ih =>
    by_cases h : n = 0
    · simp [h, decDigits_zero]
    · have hlt : n / 10 < n := Nat.div_lt_self (Nat.pos_of_ne_zero h) (by omega)
      rw [decDigits_succ h]
      intro c hc
      rcases List.mem_append.mp hc with hm | hm
      · exact ih (n / 10) hlt c hm
      · rw [List.mem_singleton] at hm
        exact hm ▸ digitCh_isDig (Nat.mod_lt _ (by omega))

theorem natToDec_all_dig (n : Nat) : ∀ c ∈ natToDec n, isDig c = true := by
  unfold natToDec
  by_cases h : n = 0
  · simp [h]; rfl
  · simpa [h] using decDigits_all_dig n

theorem natToDec_ne_nil (n : Nat) : natToDec n ≠ [] := by
  unfold natToDec
  by_cases h : n = 0
  · simp [h]
  · simpa [h] using decDigits_ne_nil h

theorem decVal_natToDec (n : Nat) : decVal (natToDec n) = n := by
  unfold natToDec
  by_cases h : n = 0
  · simp [h]; rfl
  · simpa [h] using decVal_decDigits n

theorem natToDec_length_le {n k : Nat} (hk : 1 ≤ k) (h : n < 10 ^ k) :
    (natToDec n).length ≤ k := by
  unfold natToDec
  by_cases h0 : n = 0
  · simpa [h0] using hk
  · simpa [h0] using decDigits_length_le n k h

/-- A digit string headed by the most significant digit of `n ≥ 1` never
starts with `'0'`. -/
theorem decDigits_head : ∀ n : Nat, n ≠ 0 →
    ∃ c t, decDigits n = c :: t ∧ isDig c = true ∧ c ≠ '0' := by
  intro n
  induction n using Nat.strong_induction_on with
  | _ n ih =>
    intro h
    by_cases hsmall : n < 10
    · have h10 : n / 10 = 0 := Nat.div_eq_of_lt hsmall
      have hm : n % 10 = n := Nat.mod_eq_of_lt hsmall
      rw [decDigits_succ h, h10, decDigits_zero, hm]
      refine ⟨digitCh n, [], rfl, digitCh_isDig hsmall, ?_⟩
      interval_cases n <;> simp_all <;> decide
    · have hlt : n / 10 < n := Nat.div_lt_self (Nat.pos_of_ne_zero h) (by omega)
      have hne : n / 10 ≠ 0 := by omega
      obtain ⟨c, t, heq, hdig, hz⟩ := ih (n / 10) hlt hne
      rw [decDigits_succ h, heq]
      exact ⟨c, t ++ [digitCh (n % 10)], by simp, hdig, hz⟩

/-! ### `string.zfill`, `str.strip` and `int()` -/

/-- `string.zfill(n, 10)` for a non-negative int `n`: `str(n)` left-padded
with `'0'` to width 10; a longer `str(n)` is returned unchanged. -/
def zfill10 (n : Nat) : Str := List.replicate (10 - (natToDec n).length) '0' ++ natToDec n

/-- Python2 `str.isspace` characters, used by `str.strip()`. -/
def isPySpace (c : Char) : Bool :=
  c.toNat = 32 || c.toNat = 9 || c.toNat = 10 || c.toNat = 13 || c.toNat = 11 || c.toNat = 12

/-- `str.strip()`: drop leading and trailing whitespace. -/
def pyStrip (s : Str) : Str :=
  (((s.dropWhile isPySpace).reverse).dropWhile isPySpace).reverse

/-- `int(s)` on a python string: optional surrounding whitespace, optional
sign, one or more decimal digits; anything else raises `ValueError` (`none`). -/
def pyInt (s : Str) : Option Int :=
  match pyStrip s with
  | [] => none
  | c :: ds =>
    if c = '-' then
      if !ds.isEmpty && ds.all isDig then some (-(decVal ds : Int)) else none
    else if c = '+' then
      if !ds.isEmpty && ds.all isDig then some ((decVal ds : Int)) else none
    else if (c :: ds).all isDig then some ((decVal (c :: ds) : Int)) else none

theorem isDig_not_pySpace {c : Char} (h : isDig c = true) : isPySpace c = false := by
  simp only [isDig, Bool.and_eq_true, decide_eq_true_eq] at h
  simp only [isPySpace, Bool.or_eq_false_iff, decide_eq_false_iff_not]
  omega

theorem dropWhile_eq_self_of_false {p : Char → Bool} :
    ∀ {s : Str}, (∀ c ∈ s, p c = false) → s.dropWhile p = s := by
  intro s h
  cases s with
  | nil => rfl
  | cons a t => simp [List.dropWhile, h a (List.mem_cons_self a t)]

theorem pyStrip_of_no_space {s : Str} (h : ∀ c ∈ s, isPySpace c = false) :
    pyStrip s = s := by
  unfold pyStrip
  rw [dropWhile_eq_self_of_false h, dropWhile_eq_self_of_false, List.reverse_reverse]
  intro c hc
  exact h c (List.mem_reverse.mp hc)

theorem decVal_replicate_zero : ∀ (k : Nat) (s : Str),
    decVal (List.replicate k '0' ++ s) = decVal s := by
  intro k
  induction k with
  | zero => simp
  | succ m ih =>
    intro s
    simpa [List.replicate_succ, decVal, List.foldl_cons] using ih s

theorem zfill10_all_dig (n : Nat) : ∀ c ∈ zfill10 n, isDig c = true := by
  intro c hc
  rcases List.mem_append.mp hc with hm | hm
  · rw [List.eq_of_mem_replicate hm]; rfl
  · exact natToDec_all_dig n c hm

theorem zfill10_ne_nil (n : Nat) : zfill10 n ≠ [] := by
  unfold zfill10
  intro h
  exact natToDec_ne_nil n (List.append_eq_nil.mp h).2

theorem zfill10_length {n : Nat} (h : n < 10 ^ 10) : (zfill10 n).length = 10 := by
  have hle := natToDec_length_le (by omega) h
  simp only [zfill10, List.length_append, List.length_replicate]
  omega

/-- Reading the zero-padded header back with `int()` recovers the length. -/
theorem pyInt_zfill10 (n : Nat) : pyInt (zfill10 n) = some (n : Int) := by
  have hdig := zfill10_all_dig n
  have hstrip : pyStrip (zfill10 n) = zfill10 n :=
    pyStrip_of_no_space (fun c hc => isDig_not_pySpace (hdig c hc))
  have hval : decVal (zfill10 n) = n := by
    unfold zfill10
    rw [decVal_replicate_zero, decVal_natToDec]
  have hall : (zfill10 n).all isDig = true := List.all_eq_true.mpr hdig
  unfold pyInt
  rw [hstrip]
  cases h : zfill10 n with
  | nil => exact absurd h (zfill10_ne_nil n)
  | cons a t =>
    have ha : isDig a = true := hdig a (h ▸ List.mem_cons_self a t)
    have hna : a ≠ '-' ∧ a ≠ '+' := by
      simp only [isDig, Bool.and_eq_true, decide_eq_true_eq] at ha
      constructor <;> (intro he; subst he; revert ha; decide)
    have hall2 : (a :: t).all isDig = true := h ▸ hall
    have hval2 : decVal (a :: t) = n := h ▸ hval
    simp [hna.1, hna.2, hall2, hval2]

/-! ### JSON string escaping (`json.dumps` with `ensure_ascii=True`) and the
string scanner of `json.loads`.  The json module is the python standard
library; it is modelled here exactly as the code uses it: the encoder escapes
`"` and `\`, uses the short escapes for the named control characters, keeps
printable ASCII, and writes every other character as `\uXXXX` (a surrogate
pair for code points beyond the basic plane); the scanner reverses this. -/

/-- Lowercase hex digit character (`'%04x'`). -/
def hexCh : Nat → Char
  | 0 => '0' | 1 => '1' | 2 => '2' | 3 => '3' | 4 => '4' | 5 => '5'
  | 6 => '6' | 7 => '7' | 8 => '8' | 9 => '9' | 10 => 'a' | 11 => 'b'
  | 12 => 'c' | 13 => 'd' | 14 => 'e' | _ => 'f'

/-- The four hex digits of `n % 0x10000`, most significant first. -/
def hex4 (n : Nat) : Str :=
  [hexCh (n / 4096 % 16), hexCh (n / 256 % 16), hexCh (n / 16 % 16), hexCh (n % 16)]

/-- Value of one hex digit character (either case), as the scanner reads it. -/
def hexVal (c : Char) : Option Nat :=
  if 48 ≤ c.toNat ∧ c.toNat ≤ 57 then some (c.toNat - 48)
  else if 97 ≤ c.toNat ∧ c.toNat ≤ 102 then some (c.toNat - 87)
  else if 65 ≤ c.toNat ∧ c.toNat ≤ 70 then some (c.toNat - 55)
  else none

/-- One character as `json.dumps(…, ensure_ascii=True)` writes it. -/
def escChar (c : Char) : Str :=
  if c = '\\' then ['\\', '\\']
  else if c = '"' then ['\\', '"']
  else if c.toNat = 8 then ['\\', 'b']
  else if c.toNat = 9 then ['\\', 't']
  else if c.toNat = 10 then ['\\', 'n']
  else if c.toNat = 12 then ['\\', 'f']
  else if c.toNat = 13 then ['\\', 'r']
  else if 32 ≤ c.toNat ∧ c.toNat ≤ 126 then [c]
  else if c.toNat < 0x10000 then '\\' :: 'u' :: hex4 c.toNat
  else
    '\\' :: 'u' :: hex4 (0xd800 + (c.toNat - 0x10000) / 0x400) ++
      '\\' :: 'u' :: hex4 (0xdc00 + (c.toNat - 0x10000) % 0x400)

/-- A whole string body, escaped. -/
def escStr : Str → Str
  | [] => []
  | c :: s => escChar c ++ escStr s

/-- Value of a four-hex-digit group. -/
def hex4Val (x1 x2 x3 x4 : Char) : Option Nat :=
  match hexVal x1 with
  | none => none
  | some v1 =>
    match hexVal x2 with
    | none => none
    | some v2 =>
      match hexVal x3 with
      | none => none
      | some v3 =>
        match hexVal x4 with
        | none => none
        | some v4 => some (((v1 * 16 + v2) * 16 + v3) * 16 + v4)

/-- After a high surrogate `\uXXXX` of value `n`, the scanner insists on a
`\u` low surrogate and recombines the pair. -/
def uDecodePair (n : Nat) : Str → Option (Char × Str)
  | '\\' :: 'u' :: y1 :: y2 :: y3 :: y4 :: r2 =>
    (hex4Val y1 y2 y3 y4).bind fun m =>
      if 0xdc00 ≤ m ∧ m ≤ 0xdfff then
        some (Char.ofNat (0x10000 + (n - 0xd800) * 0x400 + (m - 0xdc00)), r2)
      else none
  | _ => none

/-- Decode a `\uXXXX` escape of known numeric value `n`: a high surrogate
must be followed by `\u` and a low surrogate, and the pair is recombined,
exactly as the py2 json scanner does. -/
def uDecodeN (n : Nat) (r : Str) : Option (Char × Str) :=
  if 0xd800 ≤ n ∧ n ≤ 0xdbff then uDecodePair n r
  else if 0xdc00 ≤ n ∧ n ≤ 0xdfff then none
  else some (Char.ofNat n, r)

/-- Decode a `\uXXXX` escape whose four hex digits follow. -/
def uDecode (x1 x2 x3 x4 : Char) (r : Str) : Option (Char × Str) :=
  (hex4Val x1 x2 x3 x4).bind fun n => uDecodeN n r

/-- Decode what follows a backslash inside a string literal, as the py2 json
scanner does: named escapes, and `\uXXXX` with surrogate-pair recombination. -/
def escDecode : Str → Option (Char × Str)
  | 'b' :: r => some (Char.ofNat 8, r)
  | 't' :: r => some (Char.ofNat 9, r)
  | 'n' :: r => some (Char.ofNat 10, r)
  | 'f' :: r => some (Char.ofNat 12, r)
  | 'r' :: r => some (Char.ofNat 13, r)
  | '"' :: r => some ('"', r)
  | '\\' :: r => some ('\\', r)
  | '/' :: r => some ('/', r)
  | 'u' :: x1 :: x2 :: x3 :: x4 :: r => uDecode x1 x2 x3 x4 r
  | _ => none

/-- Scan a string literal body up to its closing quote (`py_scanstring`);
`fuel` bounds the recursion, one unit per produced character. -/
def scanStr : Nat → Str → Option (Str × Str)
  | 0, _ => none
  | _ + 1, [] => none
  | f + 1, c :: r =>
    if c = '"' then some ([], r)
    else if c = '\\' then
      match escDecode r with
      | some (d, r2) =>
        match scanStr f r2 with
        | some (s, rest) => some (d :: s, rest)
        | none => none
      | none => none
    else if c.toNat < 32 then none
    else
      match scanStr f r with
      | some (s, rest) => some (c :: s, rest)
      | none => none

theorem hexVal_hexCh {d : Nat} (h : d < 16) : hexVal (hexCh d) = some d := by
  interval_cases d <;> rfl

theorem char_not_surrogate (c : Char) : c.toNat < 0xd800 ∨ 0xdfff < c.toNat := by
  have h := c.valid
  rcases h with h | h
  · exact Or.inl h
  · exact Or.inr h.1

theorem char_lt (c : Char) : c.toNat < 0x110000 := by
  have h := c.valid
  rcases h with h | h
  · exact Nat.lt_trans h (by norm_num)
  · exact h.2

theorem escChar_length_pos (c : Char) : 1 ≤ (escChar c).length := by
  unfold escChar
  repeat' split
  all_goals simp

/-! One-step unfolding lemmas for `scanStr`. -/

theorem scanStr_quote (f : Nat) (r : Str) : scanStr (f + 1) ('"' :: r) = some ([], r) := rfl

theorem scanStr_backslash (f : Nat) (r : Str) :
    scanStr (f + 1) ('\\' :: r)
      = match escDecode r with
        | some (d, r2) =>
          (match scanStr f r2 with
           | some (s, rest) => some (d :: s, rest)
           | none => none)
        | none => none := rfl

theorem scanStr_lit (f : Nat) (c : Char) (r : Str)
    (hq : ¬ c = '"') (hb : ¬ c = '\\') (hc : ¬ c.toNat < 32) :
    scanStr (f + 1) (c :: r)
      = match scanStr f r with
        | some (s, rest) => some (c :: s, rest)
        | none => none := by
  simp only [scanStr, if_neg hq, if_neg hb, if_neg hc]

theorem hex4Val_hex4 {n : Nat} (hn : n < 0x10000) (r : Str) :
    ∃ x1 x2 x3 x4, hex4 n ++ r = x1 :: x2 :: x3 :: x4 :: r
      ∧ hex4Val x1 x2 x3 x4 = some n := by
  have h1 : n / 4096 % 16 < 16 := Nat.mod_lt _ (by omega)
  have h2 : n / 256 % 16 < 16 := Nat.mod_lt _ (by omega)
  have h3 : n / 16 % 16 < 16 := Nat.mod_lt _ (by omega)
  have h4 : n % 16 < 16 := Nat.mod_lt _ (by omega)
  refine ⟨hexCh (n / 4096 % 16), hexCh (n / 256 % 16), hexCh (n / 16 % 16), hexCh (n % 16),
    by simp [hex4], ?_⟩
  simp only [hex4Val, hexVal_hexCh h1, hexVal_hexCh h2, hexVal_hexCh h3, hexVal_hexCh h4]
  congr 1
  omega

/-- Decoding a `\uXXXX` quad for a basic-plane value recovers it. -/
theorem escDecode_hex4 {n : Nat} (hn : n < 0x10000)
    (hs : n < 0xd800 ∨ 0xdfff < n) (r : Str) :
    escDecode ('u' :: (hex4 n ++ r)) = some (Char.ofNat n, r) := by
  obtain ⟨x1, x2, x3, x4, heq, hval⟩ := hex4Val_hex4 hn r
  rw [heq]
  show uDecode x1 x2 x3 x4 r = some (Char.ofNat n, r)
  rw [uDecode, hval, Option.some_bind, uDecodeN]
  rcases hs with hs | hs
  · rw [if_neg (by omega), if_neg (by omega)]
  · rw [if_neg (by omega), if_neg (by omega)]

/-- Decoding a surrogate-pair escape recombines the two code units. -/
theorem escDecode_surrogates (n m : Nat)
    (hn1 : 0xd800 ≤ n) (hn2 : n ≤ 0xdbff) (hm1 : 0xdc00 ≤ m) (hm2 : m ≤ 0xdfff) (r : Str) :
    escDecode ('u' :: (hex4 n ++ ('\\' :: 'u' :: (hex4 m ++ r))))
      = some (Char.ofNat (0x10000 + (n - 0xd800) * 0x400 + (m - 0xdc00)), r) := by
  obtain ⟨x1, x2, x3, x4, heqn, hvaln⟩ := hex4Val_hex4 (by omega : n < 0x10000)
    ('\\' :: 'u' :: (hex4 m ++ r))
  obtain ⟨y1, y2, y3, y4, heqm, hvalm⟩ := hex4Val_hex4 (by omega : m < 0x10000) r
  rw [heqn]
  show uDecode x1 x2 x3 x4 ('\\' :: 'u' :: (hex4 m ++ r)) = _
  rw [uDecode, hvaln, Option.some_bind, uDecodeN,
    if_pos (by omega : 0xd800 ≤ n ∧ n ≤ 0xdbff)]
  have hstep : ('\\' :: 'u' :: (hex4 m ++ r)) = ('\\' :: 'u' :: y1 :: y2 :: y3 :: y4 :: r) := by
    rw [heqm]
  rw [hstep]
  show (hex4Val y1 y2 y3 y4).bind _ = _
  rw [hvalm, Option.some_bind, if_pos (by omega : 0xdc00 ≤ m ∧ m ≤ 0xdfff)]

/-- Scanning one escaped character is exactly a `cons` on the scan of the
remainder: each escape sequence is decoded back to the character it came
from, surrogate pairs included. -/
theorem scanStr_escChar (c : Char) (f : Nat) (X : Str) :
    scanStr (f + 1) (escChar c ++ X)
      = match scanStr f X with
        | some (s, rest) => some (c :: s, rest)
        | none => none := by
  unfold escChar
  by_cases hbs : c = '\\'
  · subst hbs
    simp only [List.cons_append, List.nil_append, if_pos rfl, scanStr_backslash]
    rfl
  rw [if_neg hbs]
  by_cases hq : c = '"'
  · subst hq
    simp only [List.cons_append, List.nil_append, if_pos rfl, scanStr_backslash]
    rfl
  rw [if_neg hq]
  by_cases h8 : c.toNat = 8
  · have hc : c = Char.ofNat 8 := by rw [← Char.ofNat_toNat c, h8]
    rw [if_pos h8]
    simp only [List.cons_append, List.nil_append, scanStr_backslash]
    conv_lhs => rw [show escDecode ('b' :: X) = some (Char.ofNat 8, X) from rfl]
    rw [← hc]
  rw [if_neg h8]
  by_cases h9 : c.toNat = 9
  · have hc : c = Char.ofNat 9 := by rw [← Char.ofNat_toNat c, h9]
    rw [if_pos h9]
    simp only [List.cons_append, List.nil_append, scanStr_backslash]
    conv_lhs => rw [show escDecode ('t' :: X) = some (Char.ofNat 9, X) from rfl]
    rw [← hc]
  rw [if_neg h9]
  by_cases h10 : c.toNat = 10
  · have hc : c = Char.ofNat 10 := by rw [← Char.ofNat_toNat c, h10]
    rw [if_pos h10]
    simp only [List.cons_append, List.nil_append, scanStr_backslash]
    conv_lhs => rw [show escDecode ('n' :: X) = some (Char.ofNat 10, X) from rfl]
    rw [← hc]
  rw [if_neg h10]
  by_cases h12 : c.toNat = 12
  · have hc : c = Char.ofNat 12 := by rw [← Char.ofNat_toNat c, h12]
    rw [if_pos h12]
    simp only [List.cons_append, List.nil_append, scanStr_backslash]
    conv_lhs => rw [show escDecode ('f' :: X) = some (Char.ofNat 12, X) from rfl]
    rw [← hc]
  rw [if_neg h12]
  by_cases h13 : c.toNat = 13
  · have hc : c = Char.ofNat 13 := by rw [← Char.ofNat_toNat c, h13]
    rw [if_pos h13]
    simp only [List.cons_append, List.nil_append, scanStr_backslash]
    conv_lhs => rw [show escDecode ('r' :: X) = some (Char.ofNat 13, X) from rfl]
    rw [← hc]
  rw [if_neg h13]
  by_cases hpr : 32 ≤ c.toNat ∧ c.toNat ≤ 126
  · rw [if_pos hpr]
    simp only [List.cons_append, List.nil_append]
    exact scanStr_lit f c X hq hbs (by omega)
  rw [if_neg hpr]
  by_cases hbmp : c.toNat < 0x10000
  · rw [if_pos hbmp]
    simp only [List.cons_append, scanStr_backslash]
    rw [escDecode_hex4 hbmp (char_not_surrogate c) X, Char.ofNat_toNat]
  · rw [if_neg hbmp]
    have hlt := char_lt c
    have hdiv : (c.toNat - 0x10000) / 0x400 < 0x400 := by
      rw [Nat.div_lt_iff_lt_mul (by omega : 0 < 0x400)]
      omega
    have hmod : (c.toNat - 0x10000) % 0x400 < 0x400 := Nat.mod_lt _ (by omega)
    have hdm := Nat.div_add_mod (c.toNat - 0x10000) 0x400
    have hcomb : 0x10000 + ((0xd800 + (c.toNat - 0x10000) / 0x400) - 0xd800) * 0x400
        + ((0xdc00 + (c.toNat - 0x10000) % 0x400) - 0xdc00) = c.toNat := by omega
    have hdec := escDecode_surrogates (0xd800 + (c.toNat - 0x10000) / 0x400)
      (0xdc00 + (c.toNat - 0x10000) % 0x400) (by omega) (by omega) (by omega) (by omega) X
    rw [hcomb, Char.ofNat_toNat] at hdec
    simp only [List.cons_append, List.append_assoc]
    rw [scanStr_backslash, hdec]

/-- Scanning an escaped string body finds the closing quote and recovers the
original characters; any fuel beyond the escaped length suffices. -/
theorem scanStr_escStr : ∀ (s : Str) (fuel : Nat) (X : Str),
    (escStr s).length + 1 ≤ fuel →
    scanStr fuel (escStr s ++ '"' :: X) = some (s, X) := by
  intro s
  induction s with
  | nil =>
    intro fuel X hf
    match fuel, hf with
    | f + 1, _ => exact scanStr_quote f X
  | cons c s ih =>
    intro fuel X hf
    have hc := escChar_length_pos c
    have hlen : (escStr (c :: s)).length = (escChar c).length + (escStr s).length := by
      simp [escStr]
    match fuel, hf with
    | f + 1, hf =>
      rw [show escStr (c :: s) ++ '"' :: X = escChar c ++ (escStr s ++ '"' :: X) by
        simp [escStr]]
      rw [scanStr_escChar, ih f X (by omega)]

/-! ### JSON values and the codec (`json.dumps` / `json.loads`)

`transport.py` serializes with `json.dumps(…, cls=DataEncoder)` and parses with
`json.loads(…, cls=DataDecoder)`.  `DataEncoder`/`DataDecoder` live in the
repository's `data.py`, which is not part of this corpus; modelled from the
spec (§4.1): on plain scalars, sequences and string-keyed mappings they are the
identity extension of the standard json codec (tagged domain objects are a
passthrough for unknown discriminators), so the wire payloads of the claims —
strings, ints, lists, dicts, `None` — are plain JSON.  Numbers are modelled as
python ints (the corpus never sends floats). -/

inductive Json where
  | null
  | bool (b : Bool)
  | num (n : Int)
  | str (s : Str)
  | arr (elems : List Json)
  | obj (members : List (Str × Json))

/-- `'{'`, written by code so the character never appears in the source text. -/
def lbr : Char := '\x7b'

/-- `'}'`. -/
def rbr : Char := '\x7d'

/-- A string literal as `json.dumps` writes it. -/
def dumpStr (s : Str) : Str := '"' :: (escStr s ++ ['"'])

/-- `str(i)` for a python int: optional minus sign, then decimal digits. -/
def intToDec (i : Int) : Str :=
  if i < 0 then '-' :: natToDec i.natAbs else natToDec i.toNat

mutual
/-- `json.dumps` with its default separators `', '` and `': '` and
`ensure_ascii=True`. -/
def dumps : Json → Str
  | .null => ['n', 'u', 'l', 'l']
  | .bool false => ['f', 'a', 'l', 's', 'e']
  | .bool true => ['t', 'r', 'u', 'e']
  | .num i => intToDec i
  | .str s => dumpStr s
  | .arr xs => '[' :: (dumpsElems xs ++ [']'])
  | .obj ms => lbr :: (dumpsMembers ms ++ [rbr])
/-- Array elements, `', '`-separated. -/
def dumpsElems : List Json → Str
  | [] => []
  | x :: xs => dumps x ++ dumpsElemsTail xs
def dumpsElemsTail : List Json → Str
  | [] => []
  | x :: xs => ',' :: ' ' :: (dumps x ++ dumpsElemsTail xs)
/-- Object members, `'": "'` after each key, `', '`-separated. -/
def dumpsMembers : List (Str × Json) → Str
  | [] => []
  | (k, v) :: ms => dumpStr k ++ ':' :: ' ' :: (dumps v ++ dumpsMembersTail ms)
def dumpsMembersTail : List (Str × Json) → Str
  | [] => []
  | (k, v) :: ms => ',' :: ' ' :: (dumpStr k ++ ':' :: ' ' :: (dumps v ++ dumpsMembersTail ms))
end

/-- The whitespace the json scanner skips between tokens. -/
def isJWs (c : Char) : Bool :=
  c.toNat = 32 || c.toNat = 9 || c.toNat = 10 || c.toNat = 13

/-- Skip inter-token whitespace. -/
def skipWs (s : Str) : Str := s.dropWhile isJWs

/-- Parse `0|[1-9][0-9]*` off the front (the integer part of the scanner's
number regex; a leading zero is only the number zero). -/
def parseUNum : Str → Option (Nat × Str)
  | [] => none
  | c :: r =>
    if c = '0' then some (0, r)
    else if isDig c then
      some (decVal ((c :: r).takeWhile isDig), (c :: r).dropWhile isDig)
    else none

/-- Parse a json number off the front.  The corpus only ever carries ints, so
fractions and exponents (which `dumps` never emits for ints) are not modelled. -/
def parseNum (s : Str) : Option (Json × Str) :=
  match s with
  | [] => none
  | c :: r =>
    if c = '-' then
      (match parseUNum r with
       | some (n, rest) => some (Json.num (-(n : Int)), rest)
       | none => none)
    else
      (match parseUNum (c :: r) with
       | some (n, rest) => some (Json.num ((n : Int)), rest)
       | none => none)

mutual
/-- `json.loads`' recursive-descent value scanner.  `fuel` only bounds the
recursion; every call strictly decreases it, and `jfuel` (below) computes how
much any given value needs. -/
def parseVal : Nat → Str → Option (Json × Str)
  | 0, _ => none
  | f + 1, s =>
    match skipWs s with
    | 'n' :: 'u' :: 'l' :: 'l' :: r => some (.null, r)
    | 't' :: 'r' :: 'u' :: 'e' :: r => some (.bool true, r)
    | 'f' :: 'a' :: 'l' :: 's' :: 'e' :: r => some (.bool false, r)
    | '"' :: r =>
      (match scanStr (r.length + 1) r with
       | some (st, rest) => some (.str st, rest)
       | none => none)
    | '[' :: r =>
      (match skipWs r with
       | c2 :: r3 =>
         if c2 = ']' then some (.arr [], r3)
         else
           (match parseElems f (c2 :: r3) with
            | some (vs, rest) => some (.arr vs, rest)
            | none => none)
       | [] => none)
    | c :: r =>
      if c = lbr then
        (match skipWs r with
         | c2 :: r3 =>
           if c2 = rbr then some (.obj [], r3)
           else
             (match parseMembers f (c2 :: r3) with
              | some (ms, rest) => some (.obj ms, rest)
              | none => none)
         | [] => none)
      else if c = '-' || isDig c then parseNum (c :: r)
      else none
    | [] => none
/-- One or more `','`-separated array elements, up to the closing `']'`. -/
def parseElems : Nat → Str → Option (List Json × Str)
  | 0, _ => none
  | f + 1, s =>
    match parseVal f s with
    | none => none
    | some (v, r) =>
      match skipWs r with
      | ',' :: r2 =>
        (match parseElems f r2 with
         | some (vs, rest) => some (v :: vs, rest)
         | none => none)
      | ']' :: r2 => some ([v], r2)
      | _ => none
/-- One or more `','`-separated object members, up to the closing `'}'`. -/
def parseMembers : Nat → Str → Option (List (Str × Json) × Str)
  | 0, _ => none
  | f + 1, s =>
    match skipWs s with
    | '"' :: r =>
      (match scanStr (r.length + 1) r with
       | none => none
       | some (k, r1) =>
         match skipWs r1 with
         | ':' :: r2 =>
           (match parseVal f r2 with
            | none => none
            | some (v, r3) =>
              match skipWs r3 with
              | ',' :: r4 =>
                (match parseMembers f r4 with
                 | some (ms, rest) => some ((k, v) :: ms, rest)
                 | none => none)
              | c4 :: r4 =>
                if c4 = rbr then some ([(k, v)], r4) else none
              | [] => none)
         | _ => none)
    | _ => none
end

/-- `json.loads`: parse one document; only whitespace may follow. -/
def loads (s : Str) : Option Json :=
  match parseVal (s.length + 1) s with
  | some (v, r) => if skipWs r = [] then some v else none
  | none => none

mutual
/-- Fuel that suffices for `parseVal` on the output of `dumps`. -/
def jfuel : Json → Nat
  | .null => 1
  | .bool _ => 1
  | .num _ => 1
  | .str _ => 1
  | .arr xs => jfuelElems xs + 1
  | .obj ms => jfuelMems ms + 1
def jfuelElems : List Json → Nat
  | [] => 0
  | x :: xs => jfuel x + 1 + jfuelElems xs
def jfuelMems : List (Str × Json) → Nat
  | [] => 0
  | (_, v) :: ms => jfuel v + 1 + jfuelMems ms
end

/-- Python-dict lookup on decoded members (later duplicate keys win, as when
`json.loads` builds the dict). -/
def getKey : List (Str × Json) → Str → Option Json
  | [], _ => none
  | (k1, v) :: ms, k =>
    match getKey ms k with
    | some w => some w
    | none => if k1 = k then some v else none

/-- `k in d` on decoded members. -/
def hasKey (ms : List (Str × Json)) (k : Str) : Bool := (getKey ms k).isSome

/-! ### Codec round-trip: `loads (dumps v) = some v` -/

/-- A remainder that cannot extend a decimal literal: empty or headed by a
non-digit.  Every json delimiter (`,`, `]`, `}`, whitespace, end) qualifies. -/
def numSafe : Str → Prop
  | [] => True
  | c :: _ => isDig c = false

theorem takeWhile_append_all {p : Char → Bool} :
    ∀ (a b : Str), (∀ c ∈ a, p c = true) → (∀ c ∈ b.take 1, p c = false) →
    (a ++ b).takeWhile p = a ∧ (a ++ b).dropWhile p = b := by
  intro a
  induction a with
  | nil =>
    intro b _ hb
    cases b with
    | nil => exact ⟨rfl, rfl⟩
    | cons c t =>
      have := hb c (by simp)
      simp [List.takeWhile, List.dropWhile, this]
  | cons x a ih =>
    intro b hx hb
    have hpx : p x = true := hx x (by simp)
    obtain ⟨h1, h2⟩ := ih b (fun c hc => hx c (by simp [hc])) hb
    simp [List.takeWhile, List.dropWhile, hpx, h1, h2]

theorem numSafe_take1 {r : Str} (h : numSafe r) : ∀ c ∈ r.take 1, isDig c = false := by
  cases r with
  | nil => simp
  | cons c t =>
    intro d hd
    simp only [List.take, List.mem_singleton] at hd
    subst hd
    exact h

/-- `parseUNum` inverts `natToDec` whenever the remainder cannot extend the
digit run. -/
theorem parseUNum_natToDec (n : Nat) (rest : Str) (hr : numSafe rest) :
    parseUNum (natToDec n ++ rest) = some (n, rest) := by
  by_cases h0 : n = 0
  · subst h0
    cases rest with
    | nil => rfl
    | cons c t => rfl
  · obtain ⟨c, t, hct, hdig, hnz⟩ := decDigits_head n h0
    have hnat : natToDec n = c :: t := by simp [natToDec, h0, hct]
    have halldig : ∀ d ∈ natToDec n, isDig d = true := natToDec_all_dig n
    obtain ⟨htw, hdw⟩ := takeWhile_append_all (natToDec n) rest halldig (numSafe_take1 hr)
    rw [hnat] at htw hdw ⊢
    rw [List.cons_append]
    show parseUNum (c :: (t ++ rest)) = some (n, rest)
    simp only [parseUNum]
    rw [if_neg hnz, if_pos (hdig)]
    rw [show c :: (t ++ rest) = (c :: t) ++ rest from rfl, htw, hdw]
    rw [← hnat, decVal_natToDec]

theorem isDig_not_minus {c : Char} (h : isDig c = true) : ¬ c = '-' := by
  intro he
  subst he
  revert h
  decide

/-- `parseNum` inverts `intToDec` at every int, given a safe remainder. -/
theorem parseNum_intToDec (i : Int) (rest : Str) (hr : numSafe rest) :
    parseNum (intToDec i ++ rest) = some (Json.num i, rest) := by
  by_cases hneg : i < 0
  · rw [show intToDec i ++ rest = '-' :: (natToDec i.natAbs ++ rest) by
      simp [intToDec, if_pos hneg]]
    simp only [parseNum]
    rw [if_pos trivial, parseUNum_natToDec i.natAbs rest hr]
    have hab : -((i.natAbs : Int)) = i := by omega
    show some (Json.num (-((i.natAbs : Int))), rest) = some (Json.num i, rest)
    rw [hab]
  · have htn : ((i.toNat : Int)) = i := Int.toNat_of_nonneg (by omega)
    have heq : intToDec i ++ rest = natToDec i.toNat ++ rest := by
      simp [intToDec, if_neg hneg]
    rw [heq]
    have hhead : ∀ d ∈ natToDec i.toNat, isDig d = true := natToDec_all_dig _
    obtain ⟨c, t, hct⟩ : ∃ c t, natToDec i.toNat = c :: t := by
      cases h : natToDec i.toNat with
      | nil => exact absurd h (natToDec_ne_nil _)
      | cons c t => exact ⟨c, t, rfl⟩
    have hcd : isDig c = true := hhead c (hct ▸ List.mem_cons_self c t)
    have hcm : ¬ c = '-' := isDig_not_minus hcd
    rw [hct, List.cons_append]
    simp only [parseNum]
    rw [if_neg hcm,
      show c :: (t ++ rest) = natToDec i.toNat ++ rest by rw [hct]; rfl,
      parseUNum_natToDec i.toNat rest hr]
    show some (Json.num ((i.toNat : Int)), rest) = some (Json.num i, rest)
    rw [htn]

theorem isDig_facts {c : Char} (h : isDig c = true) :
    isJWs c = false ∧ ¬ c = ']' ∧ ¬ c = rbr ∧ ¬ c = ',' ∧ ¬ c = ':' := by
  simp only [isDig, Bool.and_eq_true, decide_eq_true_eq] at h
  refine ⟨?_, ?_, ?_, ?_, ?_⟩
  · simp only [isJWs, Bool.or_eq_false_iff, decide_eq_false_iff_not]
    omega
  all_goals (intro he; subst he; revert h; decide)

/-- Every printed value starts with a character that is neither whitespace nor
a closing delimiter nor a separator. -/
theorem dumps_head (v : Json) :
    ∃ c t, dumps v = c :: t ∧ isJWs c = false ∧ ¬ c = ']' ∧ ¬ c = rbr ∧ ¬ c = ','
      ∧ ¬ c = ':' := by
  cases v with
  | null => exact ⟨'n', _, rfl, by decide, by decide, by decide, by decide, by decide⟩
  | bool b =>
    cases b with
    | true => exact ⟨'t', _, rfl, by decide, by decide, by decide, by decide, by decide⟩
    | false => exact ⟨'f', _, rfl, by decide, by decide, by decide, by decide, by decide⟩
  | str s => exact ⟨'"', _, rfl, by decide, by decide, by decide, by decide, by decide⟩
  | arr xs => exact ⟨'[', _, rfl, by decide, by decide, by decide, by decide, by decide⟩
  | obj ms => exact ⟨lbr, _, rfl, by decide, by decide, by decide, by decide, by decide⟩
  | num i =>
    by_cases hneg : i < 0
    · refine ⟨'-', natToDec i.natAbs, ?_, by decide, by decide, by decide, by decide,
        by decide⟩
      simp [dumps, intToDec, if_pos hneg]
    · obtain ⟨c, t, hct⟩ : ∃ c t, natToDec i.toNat = c :: t := by
        cases h : natToDec i.toNat with
        | nil => exact absurd h (natToDec_ne_nil _)
        | cons c t => exact ⟨c, t, rfl⟩
      have hcd : isDig c = true := natToDec_all_dig _ c (hct ▸ List.mem_cons_self c t)
      obtain ⟨hw, hbr, hrb, hcm, hco⟩ := isDig_facts hcd
      refine ⟨c, t, ?_, hw, hbr, hrb, hcm, hco⟩
      simp [dumps, intToDec, if_neg hneg, hct]

theorem skipWs_cons_false {c : Char} (h : isJWs c = false) (r : Str) :
    skipWs (c :: r) = c :: r := by
  simp [skipWs, List.dropWhile, h]

theorem skipWs_cons_true {c : Char} (h : isJWs c = true) (r : Str) :
    skipWs (c :: r) = skipWs r := by
  simp [skipWs, List.dropWhile, h]

/-- `skipWs` is the identity in front of any printed value. -/
theorem skipWs_dumps (v : Json) (X : Str) : skipWs (dumps v ++ X) = dumps v ++ X := by
  obtain ⟨c, t, hct, hw, _, _, _, _⟩ := dumps_head v
  rw [hct, List.cons_append, skipWs_cons_false hw]

theorem dumpsElemsTail_len (x : Json) (xs : List Json) :
    (dumpsElemsTail (x :: xs)).length = 2 + (dumpsElems (x :: xs)).length := by
  simp only [dumpsElemsTail, dumpsElems, List.length_cons, List.length_append]
  omega

theorem dumpsMembersTail_len (k : Str) (v : Json) (ms : List (Str × Json)) :
    (dumpsMembersTail ((k, v) :: ms)).length = 2 + (dumpsMembers ((k, v) :: ms)).length := by
  simp only [dumpsMembersTail, dumpsMembers, List.length_cons, List.length_append]
  omega

theorem dumps_length_pos (v : Json) : 1 ≤ (dumps v).length := by
  obtain ⟨c, t, hct, _⟩ := dumps_head v
  rw [hct]
  simp

mutual
theorem jfuel_le_len : ∀ v : Json, jfuel v ≤ (dumps v).length
  | .null => by simp [jfuel, dumps]
  | .bool true => by simp [jfuel, dumps]
  | .bool false => by simp [jfuel, dumps]
  | .num i => by
    have := dumps_length_pos (.num i)
    simp only [jfuel]
    omega
  | .str s => by
    have := dumps_length_pos (.str s)
    simp only [jfuel]
    omega
  | .arr xs => by
    have h := jfuelElems_le_len xs
    simp only [jfuel, dumps, List.length_cons, List.length_append, List.length_singleton]
    omega
  | .obj ms => by
    have h := jfuelMems_le_len ms
    simp only [jfuel, dumps, List.length_cons, List.length_append, List.length_singleton]
    omega
theorem jfuelElems_le_len : ∀ xs : List Json, jfuelElems xs ≤ (dumpsElems xs).length + 1
  | [] => by simp [jfuelElems, dumpsElems]
  | x :: xs => by
    have h1 := jfuel_le_len x
    have h2 := jfuelElems_le_len xs
    cases xs with
    | nil => simp only [jfuelElems, dumpsElems, dumpsElemsTail, List.length_append,
        List.length_nil]; omega
    | cons y ys =>
      have h3 := dumpsElemsTail_len y ys
      simp only [dumpsElems, List.length_append] at h3
      simp only [jfuelElems, dumpsElems, List.length_append] at h2 ⊢
      omega
theorem jfuelMems_le_len : ∀ ms : List (Str × Json), jfuelMems ms ≤ (dumpsMembers ms).length + 1
  | [] => by simp [jfuelMems, dumpsMembers]
  | (k, v) :: ms => by
    have h1 := jfuel_le_len v
    have h2 := jfuelMems_le_len ms
    cases ms with
    | nil => simp only [jfuelMems, dumpsMembers, dumpsMembersTail, List.length_append,
        List.length_nil, List.length_cons]; omega
    | cons kv ms2 =>
      obtain ⟨k2, v2⟩ := kv
      have h3 := dumpsMembersTail_len k2 v2 ms2
      simp only [dumpsMembers, List.length_append, List.length_cons] at h3
      simp only [jfuelMems, dumpsMembers, List.length_append, List.length_cons] at h2 ⊢
      omega
end

/-! One-step unfolding and whitespace lemmas for the parser. -/

theorem parseVal_null_t (f : Nat) (X : Str) :
    parseVal (f + 1) ('n' :: 'u' :: 'l' :: 'l' :: X) = some (.null, X) := rfl

theorem parseVal_true_t (f : Nat) (X : Str) :
    parseVal (f + 1) ('t' :: 'r' :: 'u' :: 'e' :: X) = some (.bool true, X) := rfl

theorem parseVal_false_t (f : Nat) (X : Str) :
    parseVal (f + 1) ('f' :: 'a' :: 'l' :: 's' :: 'e' :: X) = some (.bool false, X) := rfl

theorem parseVal_str_t (f : Nat) (r : Str) :
    parseVal (f + 1) ('"' :: r)
      = (match scanStr (r.length + 1) r with
         | some (st, rest) => some (.str st, rest)
         | none => none) := rfl

theorem parseVal_arr_t (f : Nat) (r : Str) :
    parseVal (f + 1) ('[' :: r)
      = (match skipWs r with
         | c2 :: r3 =>
           if c2 = ']' then some (.arr [], r3)
           else
             (match parseElems f (c2 :: r3) with
              | some (vs, rest) => some (.arr vs, rest)
              | none => none)
         | [] => none) := rfl

theorem parseVal_obj_t (f : Nat) (r : Str) :
    parseVal (f + 1) (lbr :: r)
      = (match skipWs r with
         | c2 :: r3 =>
           if c2 = rbr then some (.obj [], r3)
           else
             (match parseMembers f (c2 :: r3) with
              | some (ms, rest) => some (.obj ms, rest)
              | none => none)
         | [] => none) := rfl

theorem parseVal_arr_empty (f : Nat) (X : Str) :
    parseVal (f + 1) ('[' :: ']' :: X) = some (.arr [], X) := rfl

theorem parseVal_arr_go (f : Nat) (c : Char) (t : Str) (hw : isJWs c = false)
    (hbr : ¬ c = ']') :
    parseVal (f + 1) ('[' :: (c :: t))
      = (match parseElems f (c :: t) with
         | some (vs, rest) => some (.arr vs, rest)
         | none => none) := by
  rw [parseVal_arr_t f (c :: t), skipWs_cons_false hw]
  show (if c = ']' then some (Json.arr [], t)
    else (match parseElems f (c :: t) with
          | some (vs, rest) => some (.arr vs, rest)
          | none => none)) = _
  rw [if_neg hbr]

theorem parseVal_obj_empty (f : Nat) (X : Str) :
    parseVal (f + 1) (lbr :: (rbr :: X)) = some (.obj [], X) := rfl

theorem parseVal_obj_go (f : Nat) (c : Char) (t : Str) (hw : isJWs c = false)
    (hbr : ¬ c = rbr) :
    parseVal (f + 1) (lbr :: (c :: t))
      = (match parseMembers f (c :: t) with
         | some (ms, rest) => some (.obj ms, rest)
         | none => none) := by
  rw [parseVal_obj_t f (c :: t), skipWs_cons_false hw]
  show (if c = rbr then some (Json.obj [], t)
    else (match parseMembers f (c :: t) with
          | some (ms, rest) => some (.obj ms, rest)
          | none => none)) = _
  rw [if_neg hbr]

theorem parseElems_t (f : Nat) (s : Str) :
    parseElems (f + 1) s
      = (match parseVal f s with
         | none => none
         | some (v, r) =>
           match skipWs r with
           | ',' :: r2 =>
             (match parseElems f r2 with
              | some (vs, rest) => some (v :: vs, rest)
              | none => none)
           | ']' :: r2 => some ([v], r2)
           | _ => none) := rfl

theorem parseMembers_t (f : Nat) (s : Str) :
    parseMembers (f + 1) s
      = (match skipWs s with
         | '"' :: r =>
           (match scanStr (r.length + 1) r with
            | none => none
            | some (k, r1) =>
              match skipWs r1 with
              | ':' :: r2 =>
                (match parseVal f r2 with
                 | none => none
                 | some (v, r3) =>
                   match skipWs r3 with
                   | ',' :: r4 =>
                     (match parseMembers f r4 with
                      | some (ms, rest) => some ((k, v) :: ms, rest)
                      | none => none)
                   | c4 :: r4 =>
                     if c4 = rbr then some ([(k, v)], r4) else none
                   | [] => none)
              | _ => none)
         | _ => none) := rfl

theorem parseVal_ws (f : Nat) {c : Char} (h : isJWs c = true) (X : Str) :
    parseVal f (c :: X) = parseVal f X := by
  cases f with
  | zero => rfl
  | succ f => simp only [parseVal, skipWs_cons_true h]

theorem parseElems_ws (f : Nat) {c : Char} (h : isJWs c = true) (X : Str) :
    parseElems f (c :: X) = parseElems f X := by
  cases f with
  | zero => rfl
  | succ f => simp only [parseElems, parseVal_ws f h]

theorem parseMembers_ws (f : Nat) {c : Char} (h : isJWs c = true) (X : Str) :
    parseMembers f (c :: X) = parseMembers f X := by
  cases f with
  | zero => rfl
  | succ f => simp only [parseMembers, skipWs_cons_true h]

theorem isDig_not_starts {c : Char} (h : isDig c = true) :
    ¬ c = 'n' ∧ ¬ c = 't' ∧ ¬ c = 'f' ∧ ¬ c = '"' ∧ ¬ c = '[' ∧ ¬ c = lbr
      ∧ ¬ c = '-' := by
  simp only [isDig, Bool.and_eq_true, decide_eq_true_eq] at h
  refine ⟨?_, ?_, ?_, ?_, ?_, ?_, ?_⟩
  all_goals (intro he; subst he; revert h; decide)

/-- Dispatch to the number parser when the head is a sign or digit and none of
the other value forms apply. -/
theorem parseVal_num_t (f : Nat) (c : Char) (r : Str)
    (hn : ¬ c = 'n') (ht : ¬ c = 't') (hf : ¬ c = 'f') (hq : ¬ c = '"')
    (hbk : ¬ c = '[') (hbc : ¬ c = lbr) (hw : isJWs c = false)
    (hg : (c = '-' || isDig c) = true) :
    parseVal (f + 1) (c :: r) = parseNum (c :: r) := by
  simp only [parseVal]
  rw [skipWs_cons_false hw]
  split
  · rename_i heq; injection heq with h1 _; exact absurd h1 hn
  · rename_i heq; injection heq with h1 _; exact absurd h1 ht
  · rename_i heq; injection heq with h1 _; exact absurd h1 hf
  · rename_i heq; injection heq with h1 _; exact absurd h1 hq
  · rename_i heq; injection heq with h1 _; exact absurd h1 hbk
  · rename_i c1 r1 heq
    injection heq with h1 h2
    subst h1
    subst h2
    rw [if_neg hbc, if_pos hg]
  · rename_i heq; cases heq

theorem jfuel_pos : ∀ v : Json, 1 ≤ jfuel v := by
  intro v
  cases v <;> simp [jfuel]

theorem numSafe_rsq (X : Str) : numSafe (']' :: X) := by
  show isDig ']' = false
  decide

theorem numSafe_rbr (X : Str) : numSafe (rbr :: X) := by
  show isDig rbr = false
  decide

theorem numSafe_comma (X : Str) : numSafe (',' :: X) := by
  show isDig ',' = false
  decide

mutual
/-- The codec round-trip at values: parsing a printed value consumes exactly
its text and returns it, for any fuel at least `jfuel` and any remainder that
cannot extend a number literal. -/
theorem rtVal : ∀ (v : Json) (f : Nat) (rest : Str), jfuel v ≤ f → numSafe rest →
    parseVal f (dumps v ++ rest) = some (v, rest)
  | v, 0, rest, hf, _ => absurd (Nat.le_trans (jfuel_pos v) hf) (by omega)
  | .null, f + 1, rest, _, _ => by
    rw [show dumps .null ++ rest = 'n' :: 'u' :: 'l' :: 'l' :: rest from rfl]
    exact parseVal_null_t f rest
  | .bool true, f + 1, rest, _, _ => by
    rw [show dumps (.bool true) ++ rest = 't' :: 'r' :: 'u' :: 'e' :: rest from rfl]
    exact parseVal_true_t f rest
  | .bool false, f + 1, rest, _, _ => by
    rw [show dumps (.bool false) ++ rest = 'f' :: 'a' :: 'l' :: 's' :: 'e' :: rest from rfl]
    exact parseVal_false_t f rest
  | .num i, f + 1, rest, _, hsafe => by
    by_cases hneg : i < 0
    · rw [show dumps (.num i) ++ rest = '-' :: (natToDec i.natAbs ++ rest) by
        simp [dumps, intToDec, if_pos hneg]]
      rw [parseVal_num_t f '-' _ (by decide) (by decide) (by decide) (by decide)
        (by decide) (by decide) (by decide) (by decide)]
      rw [show '-' :: (natToDec i.natAbs ++ rest) = intToDec i ++ rest by
        simp [intToDec, if_pos hneg]]
      exact parseNum_intToDec i rest hsafe
    · obtain ⟨c, t, hct⟩ : ∃ c t, natToDec i.toNat = c :: t := by
        cases h : natToDec i.toNat with
        | nil => exact absurd h (natToDec_ne_nil _)
        | cons c t => exact ⟨c, t, rfl⟩
      have hcd : isDig c = true := natToDec_all_dig _ c (hct ▸ List.mem_cons_self c t)
      obtain ⟨hn, ht, hf2, hq, hbk, hbc, _⟩ := isDig_not_starts hcd
      obtain ⟨hw, _, _, _, _⟩ := isDig_facts hcd
      rw [show dumps (.num i) ++ rest = c :: (t ++ rest) by
        simp [dumps, intToDec, if_neg hneg, hct]]
      rw [parseVal_num_t f c _ hn ht hf2 hq hbk hbc hw (by simp [hcd])]
      rw [show c :: (t ++ rest) = intToDec i ++ rest by
        simp [intToDec, if_neg hneg, hct]]
      exact parseNum_intToDec i rest hsafe
  | .str s, f + 1, rest, _, _ => by
    rw [show dumps (.str s) ++ rest = '"' :: (escStr s ++ '"' :: rest) by
      simp [dumps, dumpStr]]
    rw [parseVal_str_t f (escStr s ++ '"' :: rest)]
    rw [scanStr_escStr s ((escStr s ++ '"' :: rest).length + 1) rest
      (by simp only [List.length_append, List.length_cons]; omega)]
  | .arr [], f + 1, rest, _, _ => by
    rw [show dumps (.arr []) ++ rest = '[' :: (']' :: rest) from rfl]
    exact parseVal_arr_empty f rest
  | .arr (x :: xs), f + 1, rest, hfu, _ => by
    obtain ⟨c, t, hct, hw, hbr, _, _, _⟩ := dumps_head x
    have hshape : dumps (.arr (x :: xs)) ++ rest
        = '[' :: (dumpsElems (x :: xs) ++ ']' :: rest) := by
      simp [dumps]
    have hexpose : dumpsElems (x :: xs) ++ ']' :: rest
        = c :: (t ++ (dumpsElemsTail xs ++ ']' :: rest)) := by
      simp [dumpsElems, hct]
    rw [hshape, hexpose, parseVal_arr_go f c _ hw hbr, ← hexpose]
    have hfu2 : jfuelElems (x :: xs) ≤ f := by
      simp only [jfuel] at hfu
      omega
    rw [rtElems x xs f rest hfu2]
  | .obj [], f + 1, rest, _, _ => by
    rw [show dumps (.obj []) ++ rest = lbr :: (rbr :: rest) from rfl]
    exact parseVal_obj_empty f rest
  | .obj ((k, v) :: ms), f + 1, rest, hfu, _ => by
    have hshape : dumps (.obj ((k, v) :: ms)) ++ rest
        = lbr :: (dumpsMembers ((k, v) :: ms) ++ rbr :: rest) := by
      simp [dumps]
    have hexpose : dumpsMembers ((k, v) :: ms) ++ rbr :: rest
        = '"' :: (escStr k ++ '"' :: (':' :: ' ' ::
            (dumps v ++ (dumpsMembersTail ms ++ rbr :: rest)))) := by
      simp [dumpsMembers, dumpStr]
    rw [hshape, hexpose, parseVal_obj_go f '"' _ (by decide) (by decide), ← hexpose]
    have hfu2 : jfuelMems ((k, v) :: ms) ≤ f := by
      simp only [jfuel] at hfu
      omega
    rw [rtMems k v ms f rest hfu2]
  termination_by v _ _ _ _ => sizeOf v
/-- The round-trip at array element lists. -/
theorem rtElems : ∀ (x : Json) (xs : List Json) (f : Nat) (rest : Str),
    jfuelElems (x :: xs) ≤ f →
    parseElems f (dumpsElems (x :: xs) ++ ']' :: rest) = some (x :: xs, rest)
  | x, xs, 0, rest, hf => by
    have := jfuel_pos x
    simp only [jfuelElems] at hf
    omega
  | x, [], f + 1, rest, hf => by
    have hfx : jfuel x ≤ f := by
      simp only [jfuelElems] at hf
      omega
    have harg : dumpsElems [x] ++ ']' :: rest = dumps x ++ ']' :: rest := by
      simp [dumpsElems, dumpsElemsTail]
    rw [harg, parseElems_t f _, rtVal x f (']' :: rest) hfx (numSafe_rsq rest)]
    exact rfl
  | x, y :: ys, f + 1, rest, hf => by
    have hfx : jfuel x ≤ f := by
      simp only [jfuelElems] at hf
      omega
    have hfys : jfuelElems (y :: ys) ≤ f := by
      have := jfuel_pos x
      simp only [jfuelElems] at hf ⊢
      omega
    have harg : dumpsElems (x :: y :: ys) ++ ']' :: rest
        = dumps x ++ (',' :: ' ' :: (dumpsElems (y :: ys) ++ ']' :: rest)) := by
      simp [dumpsElems, dumpsElemsTail]
    rw [harg, parseElems_t f _,
      rtVal x f (',' :: ' ' :: (dumpsElems (y :: ys) ++ ']' :: rest)) hfx
        (numSafe_comma _)]
    show (match parseElems f (' ' :: (dumpsElems (y :: ys) ++ ']' :: rest)) with
          | some (vs, rest2) => some (x :: vs, rest2)
          | none => none) = some (x :: y :: ys, rest)
    rw [parseElems_ws f (by decide) (dumpsElems (y :: ys) ++ ']' :: rest),
      rtElems y ys f rest hfys]
  termination_by x xs _ _ _ => sizeOf x + sizeOf xs
/-- The round-trip at object member lists. -/
theorem rtMems : ∀ (k : Str) (v : Json) (ms : List (Str × Json)) (f : Nat) (rest : Str),
    jfuelMems ((k, v) :: ms) ≤ f →
    parseMembers f (dumpsMembers ((k, v) :: ms) ++ rbr :: rest)
      = some ((k, v) :: ms, rest)
  | k, v, ms, 0, rest, hf => by
    have := jfuel_pos v
    simp only [jfuelMems] at hf
    omega
  | k, v, [], f + 1, rest, hf => by
    have hfv : jfuel v ≤ f := by
      simp only [jfuelMems] at hf
      omega
    have harg : dumpsMembers [(k, v)] ++ rbr :: rest
        = '"' :: (escStr k ++ '"' :: (':' :: ' ' :: (dumps v ++ rbr :: rest))) := by
      simp [dumpsMembers, dumpsMembersTail, dumpStr]
    rw [harg, parseMembers_t f _]
    show (match scanStr ((escStr k ++ '"' :: (':' :: ' ' :: (dumps v ++ rbr :: rest))).length + 1)
            (escStr k ++ '"' :: (':' :: ' ' :: (dumps v ++ rbr :: rest))) with
          | none => none
          | some (k1, r1) =>
            match skipWs r1 with
            | ':' :: r2 =>
              (match parseVal f r2 with
               | none => none
               | some (v1, r3) =>
                 match skipWs r3 with
                 | ',' :: r4 =>
                   (match parseMembers f r4 with
                    | some (ms1, rest1) => some ((k1, v1) :: ms1, rest1)
                    | none => none)
                 | c4 :: r4 => if c4 = rbr then some ([(k1, v1)], r4) else none
                 | [] => none)
            | _ => none) = some ([(k, v)], rest)
    rw [scanStr_escStr k _ _ (by simp only [List.length_append, List.length_cons]; omega)]
    show (match parseVal f (' ' :: (dumps v ++ rbr :: rest)) with
          | none => none
          | some (v1, r3) =>
            match skipWs r3 with
            | ',' :: r4 =>
              (match parseMembers f r4 with
               | some (ms1, rest1) => some ((k, v1) :: ms1, rest1)
               | none => none)
            | c4 :: r4 => if c4 = rbr then some ([(k, v1)], r4) else none
            | [] => none) = some ([(k, v)], rest)
    rw [parseVal_ws f (by decide) (dumps v ++ rbr :: rest),
      rtVal v f (rbr :: rest) hfv (numSafe_rbr rest)]
    exact rfl
  | k, v, (k2, v2) :: ms2, f + 1, rest, hf => by
    have hfv : jfuel v ≤ f := by
      simp only [jfuelMems] at hf
      omega
    have hfms : jfuelMems ((k2, v2) :: ms2) ≤ f := by
      have := jfuel_pos v
      simp only [jfuelMems] at hf ⊢
      omega
    have harg : dumpsMembers ((k, v) :: (k2, v2) :: ms2) ++ rbr :: rest
        = '"' :: (escStr k ++ '"' :: (':' :: ' ' :: (dumps v
            ++ ',' :: ' ' :: (dumpsMembers ((k2, v2) :: ms2) ++ rbr :: rest)))) := by
      simp [dumpsMembers, dumpsMembersTail, dumpStr]
    rw [harg, parseMembers_t f _]
    show (match scanStr ((escStr k ++ '"' :: (':' :: ' ' :: (dumps v
              ++ ',' :: ' ' :: (dumpsMembers ((k2, v2) :: ms2) ++ rbr :: rest)))).length + 1)
            (escStr k ++ '"' :: (':' :: ' ' :: (dumps v
              ++ ',' :: ' ' :: (dumpsMembers ((k2, v2) :: ms2) ++ rbr :: rest)))) with
          | none => none
          | some (k1, r1) =>
            match skipWs r1 with
            | ':' :: r2 =>
              (match parseVal f r2 with
               | none => none
               | some (v1, r3) =>
                 match skipWs r3 with
                 | ',' :: r4 =>
                   (match parseMembers f r4 with
                    | some (ms1, rest1) => some ((k1, v1) :: ms1, rest1)
                    | none => none)
                 | c4 :: r4 => if c4 = rbr then some ([(k1, v1)], r4) else none
                 | [] => none)
            | _ => none) = some ((k, v) :: (k2, v2) :: ms2, rest)
    rw [scanStr_escStr k _ _ (by simp only [List.length_append, List.length_cons]; omega)]
    show (match parseVal f (' ' :: (dumps v
            ++ ',' :: ' ' :: (dumpsMembers ((k2, v2) :: ms2) ++ rbr :: rest))) with
          | none => none
          | some (v1, r3) =>
            match skipWs r3 with
            | ',' :: r4 =>
              (match parseMembers f r4 with
               | some (ms1, rest1) => some ((k, v1) :: ms1, rest1)
               | none => none)
            | c4 :: r4 => if c4 = rbr then some ([(k, v1)], r4) else none
            | [] => none) = some ((k, v) :: (k2, v2) :: ms2, rest)
    rw [parseVal_ws f (by decide)
        (dumps v ++ ',' :: ' ' :: (dumpsMembers ((k2, v2) :: ms2) ++ rbr :: rest)),
      rtVal v f _ hfv (numSafe_comma _)]
    show (match parseMembers f (' ' :: (dumpsMembers ((k2, v2) :: ms2) ++ rbr :: rest)) with
          | some (ms1, rest1) => some ((k, v) :: ms1, rest1)
          | none => none) = some ((k, v) :: (k2, v2) :: ms2, rest)
    rw [parseMembers_ws f (by decide) (dumpsMembers ((k2, v2) :: ms2) ++ rbr :: rest),
      rtMems k2 v2 ms2 f rest hfms]
  termination_by k v ms _ _ _ => sizeOf v + sizeOf ms
end

/-- `json.loads` inverts `json.dumps` on every value. -/
theorem loads_dumps (v : Json) : loads (dumps v) = some v := by
  have hfu : jfuel v ≤ (dumps v).length + 1 := Nat.le_succ_of_le (jfuel_le_len v)
  have h := rtVal v ((dumps v).length + 1) [] hfu trivial
  rw [List.append_nil] at h
  unfold loads
  rw [h]
  rfl

/-! ### The framed transport (`src/lsm/lsm/transport.py`)

The socket is a `Stream`: the list of byte groups successive `recv` calls
return.  `recv(k)` delivers at most `k` bytes from the front group, keeping
any leftover; an exhausted stream makes `recv` return the empty string, which
is how a disconnected peer appears to the reader.  Quantifying theorems over
all streams with a given concatenation covers every way the peer's bytes can
be chunked into partial reads. -/

/-- Python exceptions the transport code can raise.  `LsmError(**e)` carries
the decoded `code`/`message`/`data` fields verbatim (the `LsmError` class
lives in the repository's `common.py`, outside this corpus; modelled from the
spec §4.3: a structured failure carrying exactly those three fields). -/
inductive PyErr where
  | socketEOF
  | valueError
  | keyError
  | typeError
  | assertionError
  | lsmError (code : Json) (message : Json) (data : Json)

/-- What each successive `recv` can deliver. -/
abbrev Stream := List Str

/-- All bytes the peer has sent, in order. -/
def joinS (st : Stream) : Str := st.flatten

namespace Transport

/-- The `while len(data) < l` loop of `Transport.__readAll`: ask `recv` for
exactly the missing byte count, append what arrives, and raise `SocketEOF`
the moment `recv` returns zero bytes. -/
def readLoop : Nat → Stream → Except PyErr (Str × Stream)
  | 0, st => .ok ([], st)
  | _ + 1, [] => .error .socketEOF
  | _ + 1, [] :: _ => .error .socketEOF
  | n + 1, (x :: xs) :: cs =>
    match readLoop (n - (xs.take n).length)
        (if xs.drop n = [] then cs else xs.drop n :: cs) with
    | .ok (d, st2) => .ok (x :: (xs.take n ++ d), st2)
    | .error e => .error e
termination_by n _ => n
decreasing_by omega

/-- `Transport.__readAll(l)`: `ValueError` for a request below one byte,
otherwise read exactly `l` bytes. -/
def readAll (l : Int) (st : Stream) : Except PyErr (Str × Stream) :=
  if l < 1 then .error .valueError
  else readLoop l.toNat st

/-- `Transport.__sendMsg(msg)`: `ValueError` on `None` or an empty message,
otherwise one `sendall` of the zero-padded 10-digit length header followed
immediately by the message.  The returned string is the single write. -/
def sendMsg (msg : Option Str) : Except PyErr Str :=
  match msg with
  | none => .error .valueError
  | some m =>
    if m.length < 1 then .error .valueError
    else .ok (zfill10 m.length ++ m)

/-- `Transport.__recvMsg()`: read the 10-byte header, parse it with `int()`,
then read that many bytes. -/
def recvMsg (st : Stream) : Except PyErr (Str × Stream) :=
  match readAll 10 st with
  | .error e => .error e
  | .ok (hdr, st1) =>
    match pyInt hdr with
    | none => .error .valueError
    | some l => readAll l st1

/-- The request message `{'method': method, 'id': 100, 'params': args}`.
(A py2 dict's iteration order is unspecified; the members are modelled in
literal order, and every property proved of the message goes through key
lookup, not position.) -/
def reqMsg (method : Str) (args : Json) : Json :=
  Json.obj [(("method").toList, Json.str method), (("id").toList, Json.num 100),
    (("params").toList, args)]

/-- `Transport.send_req`: serialize the request dict and frame it.  Returns
the bytes of the single write. -/
def send_req (method : Str) (args : Json) : Except PyErr Str :=
  sendMsg (some (dumps (reqMsg method args)))

/-- `Transport.read_req`: receive one frame and parse it; an empty frame body
returns `None` (python's implicit return). -/
def read_req (st : Stream) : Except PyErr (Option Json × Stream) :=
  match recvMsg st with
  | .error e => .error e
  | .ok (data, st1) =>
    if data.length = 0 then .ok (none, st1)
    else
      match loads data with
      | some v => .ok (some v, st1)
      | none => .error .valueError

/-- The fault message of `Transport.send_error`. -/
def errMsg (id : Int) (error_code : Int) (msg : Str) (data : Json) : Json :=
  Json.obj [(("id").toList, Json.num id),
    (("error").toList, Json.obj [(("code").toList, Json.num error_code),
      (("message").toList, Json.str msg), (("data").toList, data)])]

/-- `Transport.send_error(id, error_code, msg, data=None)`. -/
def send_error (id : Int) (error_code : Int) (msg : Str) (data : Json) :
    Except PyErr Str :=
  sendMsg (some (dumps (errMsg id error_code msg data)))

/-- The response message of `Transport.send_resp`. -/
def respMsg (result : Json) (id : Int) : Json :=
  Json.obj [(("id").toList, Json.num id), (("result").toList, result)]

/-- `Transport.send_resp(result, id=100)`. -/
def send_resp (result : Json) (id : Int) : Except PyErr Str :=
  sendMsg (some (dumps (respMsg result id)))

/-- The branch of `Transport.read_resp` on the decoded message: when a
`result` key is present produce `(resp['result'], resp['id'])`, otherwise
raise `LsmError(**resp['error'])`.  (A missing dict key is a `KeyError`; `in`
or `**` applied to a non-dict is a `TypeError`.) -/
def dispatchResp (resp : Json) : Except PyErr (Json × Json) :=
  match resp with
  | Json.obj ms =>
    if hasKey ms (("result").toList) then
      match getKey ms (("result").toList), getKey ms (("id").toList) with
      | some result, some idv => .ok (result, idv)
      | _, _ => .error .keyError
    else
      match getKey ms (("error").toList) with
      | none => .error .keyError
      | some e =>
        match e with
        | Json.obj ems =>
          (match getKey ems (("code").toList), getKey ems (("message").toList),
              getKey ems (("data").toList) with
           | some c, some m, some d => .error (.lsmError c m d)
           | _, _, _ => .error .typeError)
        | _ => .error .typeError
  | _ => .error .typeError

/-- `Transport.read_resp`: receive and decode one message, then dispatch on
it.  No id validation happens here. -/
def read_resp (st : Stream) : Except PyErr ((Json × Json) × Stream) :=
  match recvMsg st with
  | .error e => .error e
  | .ok (data, st1) =>
    match loads data with
    | none => .error .valueError
    | some resp =>
      match dispatchResp resp with
      | .ok p => .ok (p, st1)
      | .error e => .error e

/-- `Transport.rpc`: send the request, read the reply, `assert id == 100`,
return the reply.  The result carries the request's wire bytes alongside. -/
def rpc (method : Str) (args : Json) (st : Stream) :
    Except PyErr ((Str × Json) × Stream) :=
  match send_req method args with
  | .error e => .error e
  | .ok wire =>
    match read_resp st with
    | .error e => .error e
    | .ok ((reply, idv), st1) =>
      match idv with
      | Json.num i => if i = 100 then .ok ((wire, reply), st1) else .error .assertionError
      | _ => .error .assertionError

end Transport

/-! ### Framing lemmas: `__readAll` over an arbitrarily chunked stream -/

theorem joinS_nil : joinS [] = [] := rfl

theorem joinS_cons (x : Str) (cs : Stream) : joinS (x :: cs) = x ++ joinS cs :=
  List.flatten_cons

namespace Transport

/-- However the peer's bytes are chunked, a read of `n ≤ available` bytes
returns exactly the first `n` bytes and leaves exactly the remainder. -/
theorem readLoop_ok : ∀ (n : Nat) (st : Stream), (∀ c ∈ st, c ≠ []) →
    n ≤ (joinS st).length →
    ∃ st2, readLoop n st = .ok ((joinS st).take n, st2)
      ∧ joinS st2 = (joinS st).drop n ∧ (∀ c ∈ st2, c ≠ []) := by
  intro n
  induction n using Nat.strong_induction_on with
  | _ n ih =>
    intro st hne hlen
    match n with
    | 0 =>
      refine ⟨st, ?_, by simp, hne⟩
      rw [readLoop]
      simp
    | m + 1 =>
      match st with
      | [] =>
        exfalso
        rw [joinS_nil] at hlen
        simp at hlen
      | [] :: cs => exact absurd rfl (hne [] (by simp))
      | (x :: xs) :: cs =>
        have htk : (xs.take m).length = min m xs.length := List.length_take m xs
        have hdp : (xs.drop m).length = xs.length - m := List.length_drop m xs
        have hjlen : (joinS ((x :: xs) :: cs)).length
            = 1 + xs.length + (joinS cs).length := by
          rw [joinS_cons]
          simp
          omega
        have hne1 : ∀ c ∈ (if xs.drop m = [] then cs else xs.drop m :: cs), c ≠ [] := by
          split
          · intro c hc; exact hne c (by simp [hc])
          · rename_i hd
            intro c hc
            rcases List.mem_cons.mp hc with rfl | hc2
            · exact hd
            · exact hne c (by simp [hc2])
        have hjoin1 : joinS (if xs.drop m = [] then cs else xs.drop m :: cs)
            = xs.drop m ++ joinS cs := by
          split
          · rename_i hd; rw [hd]; rfl
          · exact joinS_cons _ _
        have hlen1 : m - (xs.take m).length
            ≤ (joinS (if xs.drop m = [] then cs else xs.drop m :: cs)).length := by
          rw [hjoin1]
          simp only [List.length_append]
          rw [joinS_cons] at hlen
          simp only [List.length_cons, List.length_append] at hlen
          omega
        obtain ⟨st2, hrl, hj2, hne2⟩ :=
          ih (m - (xs.take m).length) (by omega) _ hne1 hlen1
        refine ⟨st2, ?_, ?_, hne2⟩
        · rw [readLoop, hrl, hjoin1, joinS_cons, List.cons_append, List.take_succ_cons,
            List.take_append_eq_append_take, List.take_append_eq_append_take]
          by_cases hc : m ≤ xs.length
          · have h0 : m - (xs.take m).length = 0 := by omega
            have h0b : m - xs.length = 0 := by omega
            rw [h0, h0b]
            simp
          · have hxs : xs.take m = xs := List.take_of_length_le (by omega)
            have hxd : xs.drop m = [] := List.drop_of_length_le (by omega)
            rw [hxs, hxd]
            simp
        · rw [hj2, hjoin1, joinS_cons, List.cons_append, List.drop_succ_cons,
            List.drop_append_eq_append_drop, List.drop_append_eq_append_drop]
          by_cases hc : m ≤ xs.length
          · have h0 : m - (xs.take m).length = 0 := by omega
            have h0b : m - xs.length = 0 := by omega
            rw [h0, h0b]
            simp
          · have hxs : xs.take m = xs := List.take_of_length_le (by omega)
            have hxd : xs.drop m = [] := List.drop_of_length_le (by omega)
            rw [hxs, hxd]
            simp

/-- If the peer's bytes run out before `n` are obtained, the reader fails
with `SocketEOF` — never any other error. -/
theorem readLoop_eof : ∀ (n : Nat) (st : Stream), (∀ c ∈ st, c ≠ []) →
    (joinS st).length < n →
    readLoop n st = .error .socketEOF := by
  intro n
  induction n using Nat.strong_induction_on with
  | _ n ih =>
    intro st hne hlen
    match n, hlen with
    | m + 1, hlen =>
      match st with
      | [] => rw [readLoop]
      | [] :: cs => exact absurd rfl (hne [] (by simp))
      | (x :: xs) :: cs =>
        have htk : (xs.take m).length = min m xs.length := List.length_take m xs
        rw [joinS_cons] at hlen
        simp only [List.length_cons, List.length_append] at hlen
        have hxl : xs.length < m := by omega
        have hxs : xs.take m = xs := List.take_of_length_le (by omega)
        have hxd : xs.drop m = [] := List.drop_of_length_le (by omega)
        have hrec : readLoop (m - (xs.take m).length)
            (if xs.drop m = [] then cs else xs.drop m :: cs) = .error .socketEOF := by
          rw [hxd, if_pos rfl]
          exact ih (m - (xs.take m).length) (by omega) cs
            (fun c hc => hne c (by simp [hc])) (by omega)
        rw [readLoop, hrec]

end Transport

namespace Transport

theorem readAll_ok (l : Int) (n : Nat) (st : Stream) (hln : l = (n : Int)) (h1 : 1 ≤ n)
    (hne : ∀ c ∈ st, c ≠ []) (hlen : n ≤ (joinS st).length) :
    ∃ st2, readAll l st = .ok ((joinS st).take n, st2)
      ∧ joinS st2 = (joinS st).drop n ∧ (∀ c ∈ st2, c ≠ []) := by
  subst hln
  unfold readAll
  rw [if_neg (by omega : ¬ ((n : Nat) : Int) < 1), Int.toNat_ofNat]
  exact readLoop_ok n st hne hlen

theorem readAll_eof (l : Int) (n : Nat) (st : Stream) (hln : l = (n : Int)) (h1 : 1 ≤ n)
    (hne : ∀ c ∈ st, c ≠ []) (hlen : (joinS st).length < n) :
    readAll l st = .error .socketEOF := by
  subst hln
  unfold readAll
  rw [if_neg (by omega : ¬ ((n : Nat) : Int) < 1), Int.toNat_ofNat]
  exact readLoop_eof n st hne hlen

/-- Receiving a correctly framed message over any chunking recovers exactly
the framed bytes, leaving the rest of the stream. -/
theorem recvMsg_ok (d : Str) (rest : Str) (st : Stream) (hne : ∀ c ∈ st, c ≠ [])
    (hd : 1 ≤ d.length) (hlen : d.length < 10 ^ 10)
    (hjoin : joinS st = zfill10 d.length ++ (d ++ rest)) :
    ∃ st2, recvMsg st = .ok (d, st2) ∧ joinS st2 = rest ∧ (∀ c ∈ st2, c ≠ []) := by
  have hz10 : (zfill10 d.length).length = 10 := zfill10_length hlen
  have hlen10 : 10 ≤ (joinS st).length := by
    rw [hjoin]
    simp only [List.length_append]
    omega
  obtain ⟨st1, hr1, hj1, hne1⟩ := readAll_ok 10 10 st rfl (by omega) hne hlen10
  have htake : (joinS st).take 10 = zfill10 d.length := by
    rw [hjoin, ← hz10, List.take_left]
  have hdrop : (joinS st).drop 10 = d ++ rest := by
    rw [hjoin, ← hz10, List.drop_left]
  rw [htake] at hr1
  rw [hdrop] at hj1
  obtain ⟨st2, hr2, hj2, hne2⟩ := readAll_ok (d.length : Int) d.length st1 rfl hd hne1
    (by rw [hj1]; simp only [List.length_append]; omega)
  rw [hj1] at hr2 hj2
  rw [List.take_left] at hr2
  rw [List.drop_left] at hj2
  refine ⟨st2, ?_, hj2, hne2⟩
  unfold recvMsg
  rw [hr1]
  show (match pyInt (zfill10 d.length) with
        | none => (.error .valueError : Except PyErr (Str × Stream))
        | some l => readAll l st1) = .ok (d, st2)
  rw [pyInt_zfill10]
  exact hr2

/-- A peer that disconnects before completing the 10-byte header produces
`SocketEOF`. -/
theorem recvMsg_eof_header (st : Stream) (hne : ∀ c ∈ st, c ≠ [])
    (hshort : (joinS st).length < 10) : recvMsg st = .error .socketEOF := by
  unfold recvMsg
  rw [readAll_eof 10 10 st rfl (by omega) hne hshort]

/-- A peer that declares `N ≥ 1` body bytes but disconnects after fewer
produces `SocketEOF`. -/
theorem recvMsg_eof_body (N : Nat) (b : Str) (st : Stream) (hne : ∀ c ∈ st, c ≠ [])
    (hN : 1 ≤ N) (hN2 : N < 10 ^ 10) (hblen : b.length < N)
    (hjoin : joinS st = zfill10 N ++ b) :
    recvMsg st = .error .socketEOF := by
  have hz10 : (zfill10 N).length = 10 := zfill10_length hN2
  have hlen10 : 10 ≤ (joinS st).length := by
    rw [hjoin]
    simp only [List.length_append]
    omega
  obtain ⟨st1, hr1, hj1, hne1⟩ := readAll_ok 10 10 st rfl (by omega) hne hlen10
  have htake : (joinS st).take 10 = zfill10 N := by
    rw [hjoin, ← hz10, List.take_left]
  have hdrop : (joinS st).drop 10 = b := by
    rw [hjoin, ← hz10, List.drop_left]
  rw [htake] at hr1
  rw [hdrop] at hj1
  unfold recvMsg
  rw [hr1]
  show (match pyInt (zfill10 N) with
        | none => (.error .valueError : Except PyErr (Str × Stream))
        | some l => readAll l st1) = .error .socketEOF
  rw [pyInt_zfill10]
  exact readAll_eof (N : Int) N st1 rfl hN hne1 (by rw [hj1]; omega)

/-- A frame whose header declares length zero makes `__recvMsg` call
`__readAll(0)`, which raises `ValueError` before touching the stream. -/
theorem recvMsg_zero_header (rest : Str) (st : Stream) (hne : ∀ c ∈ st, c ≠ [])
    (hjoin : joinS st = List.replicate 10 '0' ++ rest) :
    recvMsg st = .error .valueError := by
  have hlen10 : 10 ≤ (joinS st).length := by
    rw [hjoin]
    simp
  obtain ⟨st1, hr1, hj1, hne1⟩ := readAll_ok 10 10 st rfl (by omega) hne hlen10
  have htake : (joinS st).take 10 = List.replicate 10 '0' := by
    rw [hjoin, List.take_append_eq_append_take]
    simp
  rw [htake] at hr1
  unfold recvMsg
  rw [hr1]
  show (match pyInt (List.replicate 10 '0') with
        | none => (.error .valueError : Except PyErr (Str × Stream))
        | some l => readAll l st1) = .error .valueError
  rw [show pyInt (List.replicate 10 '0') = some 0 by decide]
  rfl

theorem sendMsg_some (m : Str) (h : 1 ≤ m.length) :
    sendMsg (some m) = .ok (zfill10 m.length ++ m) := by
  simp only [sendMsg]
  rw [if_neg (by omega)]

theorem send_req_eq (method : Str) (args : Json) :
    send_req method args
      = .ok (zfill10 (dumps (reqMsg method args)).length ++ dumps (reqMsg method args)) := by
  unfold send_req
  exact sendMsg_some _ (dumps_length_pos _)

theorem send_resp_eq (result : Json) (id : Int) :
    send_resp result id
      = .ok (zfill10 (dumps (respMsg result id)).length ++ dumps (respMsg result id)) := by
  unfold send_resp
  exact sendMsg_some _ (dumps_length_pos _)

theorem send_error_eq (id : Int) (c : Int) (m : Str) (d : Json) :
    send_error id c m d
      = .ok (zfill10 (dumps (errMsg id c m d)).length ++ dumps (errMsg id c m d)) := by
  unfold send_error
  exact sendMsg_some _ (dumps_length_pos _)

/-- Reading any framed, chunked `dumps` output decodes the original value. -/
theorem read_req_ok (v : Json) (rest : Str) (st : Stream) (hne : ∀ c ∈ st, c ≠ [])
    (hlen : (dumps v).length < 10 ^ 10)
    (hjoin : joinS st = zfill10 (dumps v).length ++ (dumps v ++ rest)) :
    ∃ st2, read_req st = .ok (some v, st2) ∧ joinS st2 = rest ∧ (∀ c ∈ st2, c ≠ []) := by
  obtain ⟨st2, hr, hj, hne2⟩ := recvMsg_ok (dumps v) rest st hne (dumps_length_pos v)
    hlen hjoin
  refine ⟨st2, ?_, hj, hne2⟩
  unfold read_req
  rw [hr]
  show (if (dumps v).length = 0 then (.ok (none, st2) : Except PyErr (Option Json × Stream))
        else match loads (dumps v) with
             | some w => .ok (some w, st2)
             | none => .error .valueError) = .ok (some v, st2)
  rw [if_neg (by have := dumps_length_pos v; omega), loads_dumps]

/-- Reading any framed, chunked `dumps` output on the response path decodes
the original value and dispatches on it. -/
theorem read_resp_of (v : Json) (rest : Str) (st : Stream) (hne : ∀ c ∈ st, c ≠ [])
    (hlen : (dumps v).length < 10 ^ 10)
    (hjoin : joinS st = zfill10 (dumps v).length ++ (dumps v ++ rest)) :
    ∃ st2, read_resp st
        = (match dispatchResp v with
           | .ok p => .ok (p, st2)
           | .error e => .error e)
      ∧ joinS st2 = rest ∧ (∀ c ∈ st2, c ≠ []) := by
  obtain ⟨st2, hr, hj, hne2⟩ := recvMsg_ok (dumps v) rest st hne (dumps_length_pos v)
    hlen hjoin
  refine ⟨st2, ?_, hj, hne2⟩
  unfold read_resp
  rw [hr]
  show (match loads (dumps v) with
        | none => (.error .valueError : Except PyErr ((Json × Json) × Stream))
        | some resp =>
          match dispatchResp resp with
          | .ok p => .ok (p, st2)
          | .error e => .error e) = _
  rw [loads_dumps]

/-- Dispatch on a response message: the carried result and id come back
verbatim, with no validation of either. -/
theorem dispatchResp_respMsg (result : Json) (id : Int) :
    dispatchResp (respMsg result id) = .ok (result, Json.num id) := rfl

/-- Dispatch on a fault message: `LsmError` is raised carrying exactly the
transmitted code, message and data. -/
theorem dispatchResp_errMsg (id : Int) (c : Int) (m : Str) (d : Json) :
    dispatchResp (errMsg id c m d)
      = .error (.lsmError (Json.num c) (Json.str m) d) := rfl

end Transport

/-! ### The capability-gated plugin interface (`src/lsm/lsm/_iplugin.py`)

Every non-abstract method of `IStorageAreaNetwork`, `INetworkAttachedStorage`
and `INfs` is a one-line default body; `defaultImpl` transcribes each body.
All of them are `raise LsmError(ErrorNumber.NO_SUPPORT, "Not supported")` —
except `INetworkAttachedStorage.fs`, whose body is `pass` (returns `None`). -/

/-- Modelled from the spec: `ErrorNumber` lives in the library's `common.py`,
outside this corpus; §4.3 only requires `NO_SUPPORT` to be a distinguished
numeric code, so the concrete value is immaterial to every theorem below. -/
def NO_SUPPORT : Int := 153

/-- What a default method body does when invoked (each body is one statement
and ignores its arguments, so the behaviour is argument-independent). -/
inductive MethodBehavior where
  | raises (code : Int) (message : Str)
  | returnsNone
deriving DecidableEq

/-- The non-abstract methods of the three interface classes, in source order. -/
inductive PluginOp where
  | pool_create | pool_create_from_disks | pool_create_from_volumes
  | pool_create_from_pool | volumes | initiators | volume_create | volume_delete
  | volume_resize | volume_replicate | volume_replicate_range_block_size
  | volume_replicate_range | volume_online | volume_offline | iscsi_chap_auth
  | initiator_grant | initiator_revoke | access_group_grant | access_group_revoke
  | access_group_list | access_group_create | access_group_del
  | access_group_add_initiator | access_group_del_initiator
  | volumes_accessible_by_access_group | access_groups_granted_to_volume
  | volume_child_dependency | volume_child_dependency_rm
  | volumes_accessible_by_initiator | initiators_granted_to_volume
  | fs | fs_delete | fs_resize | fs_create | fs_clone | file_clone | fs_snapshots
  | fs_snapshot_create | fs_snapshot_delete | fs_snapshot_revert
  | fs_child_dependency | fs_child_dependency_rm
  | export_auth | exports | export_fs | export_remove
deriving DecidableEq

/-- Each default method body, transcribed from `_iplugin.py`. -/
def defaultImpl : PluginOp → MethodBehavior
  | .pool_create => .raises NO_SUPPORT (("Not supported").toList)
  | .pool_create_from_disks => .raises NO_SUPPORT (("Not supported").toList)
  | .pool_create_from_volumes => .raises NO_SUPPORT (("Not supported").toList)
  | .pool_create_from_pool => .raises NO_SUPPORT (("Not supported").toList)
  | .volumes => .raises NO_SUPPORT (("Not supported").toList)
  | .initiators => .raises NO_SUPPORT (("Not supported").toList)
  | .volume_create => .raises NO_SUPPORT (("Not supported").toList)
  | .volume_delete => .raises NO_SUPPORT (("Not supported").toList)
  | .volume_resize => .raises NO_SUPPORT (("Not supported").toList)
  | .volume_replicate => .raises NO_SUPPORT (("Not supported").toList)
  | .volume_replicate_range_block_size => .raises NO_SUPPORT (("Not supported").toList)
  | .volume_replicate_range => .raises NO_SUPPORT (("Not supported").toList)
  | .volume_online => .raises NO_SUPPORT (("Not supported").toList)
  | .volume_offline => .raises NO_SUPPORT (("Not supported").toList)
  | .iscsi_chap_auth => .raises NO_SUPPORT (("Not supported").toList)
  | .initiator_grant => .raises NO_SUPPORT (("Not supported").toList)
  | .initiator_revoke => .raises NO_SUPPORT (("Not supported").toList)
  | .access_group_grant => .raises NO_SUPPORT (("Not supported").toList)
  | .access_group_revoke => .raises NO_SUPPORT (("Not supported").toList)
  | .access_group_list => .raises NO_SUPPORT (("Not supported").toList)
  | .access_group_create => .raises NO_SUPPORT (("Not supported").toList)
  | .access_group_del => .raises NO_SUPPORT (("Not supported").toList)
  | .access_group_add_initiator => .raises NO_SUPPORT (("Not supported").toList)
  | .access_group_del_initiator => .raises NO_SUPPORT (("Not supported").toList)
  | .volumes_accessible_by_access_group => .raises NO_SUPPORT (("Not supported").toList)
  | .access_groups_granted_to_volume => .raises NO_SUPPORT (("Not supported").toList)
  | .volume_child_dependency => .raises NO_SUPPORT (("Not supported").toList)
  | .volume_child_dependency_rm => .raises NO_SUPPORT (("Not supported").toList)
  | .volumes_accessible_by_initiator => .raises NO_SUPPORT (("Not supported").toList)
  | .initiators_granted_to_volume => .raises NO_SUPPORT (("Not supported").toList)
  | .fs => .returnsNone
  | .fs_delete => .raises NO_SUPPORT (("Not supported").toList)
  | .fs_resize => .raises NO_SUPPORT (("Not supported").toList)
  | .fs_create => .raises NO_SUPPORT (("Not supported").toList)
  | .fs_clone => .raises NO_SUPPORT (("Not supported").toList)
  | .file_clone => .raises NO_SUPPORT (("Not supported").toList)
  | .fs_snapshots => .raises NO_SUPPORT (("Not supported").toList)
  | .fs_snapshot_create => .raises NO_SUPPORT (("Not supported").toList)
  | .fs_snapshot_delete => .raises NO_SUPPORT (("Not supported").toList)
  | .fs_snapshot_revert => .raises NO_SUPPORT (("Not supported").toList)
  | .fs_child_dependency => .raises NO_SUPPORT (("Not supported").toList)
  | .fs_child_dependency_rm => .raises NO_SUPPORT (("Not supported").toList)
  | .export_auth => .raises NO_SUPPORT (("Not supported").toList)
  | .exports => .raises NO_SUPPORT (("Not supported").toList)
  | .export_fs => .raises NO_SUPPORT (("Not supported").toList)
  | .export_remove => .raises NO_SUPPORT (("Not supported").toList)

/-! ### The client polling loop (`TestProxy.wait_for_it`, `plugin_test.py`) -/

/-- Modelled from the spec: `lsm.JobStatus` constants live in the library's
`common.py`, outside this corpus; §4.4 gives the job state machine
`INPROGRESS → COMPLETE | ERROR`.  Only distinctness matters below; the loop
compares against `INPROGRESS` and `COMPLETE` and treats anything else as the
error arm. -/
def JobStatus.INPROGRESS : Nat := 1

/-- See `JobStatus.INPROGRESS`. -/
def JobStatus.COMPLETE : Nat := 2

/-- See `JobStatus.INPROGRESS`. -/
def JobStatus.ERROR : Nat := 4

/-- One `job_status(job)` reply: `(status, percent_complete, item)`. -/
structure JobResp (α : Type) where
  status : Nat
  percent : Nat
  item : α
deriving DecidableEq

/-- How a `wait_for_it` run ends: a returned value, a raised `Exception`, or
blocked forever polling (the reply script ran dry, which the hypotheses of
every theorem below exclude). -/
inductive WaitOut (α : Type) where
  | ret (value : α)
  | exn (emsg : Str)
  | blocked
deriving DecidableEq

/-- The observable effects of a `wait_for_it` run: its outcome and how many
`job_status`, `job_free` and `time.sleep(0.25)` calls it made. -/
structure WaitRes (α : Type) where
  out : WaitOut α
  statusCalls : Nat
  freeCalls : Nat
  sleeps : Nat
deriving DecidableEq

/-- The `while True` body of `wait_for_it`, run against the successive
`job_status` replies: `INPROGRESS` sleeps and repolls; `COMPLETE` frees the
job and returns the carried item; anything else raises
`Exception(msg + " job error code= " + str(s))` — without freeing. -/
def waitLoop {α : Type} (msg : Str) : List (JobResp α) → WaitRes α
  | [] => ⟨.blocked, 0, 0, 0⟩
  | r :: rs =>
    if r.status = JobStatus.INPROGRESS then
      ⟨(waitLoop msg rs).out, (waitLoop msg rs).statusCalls + 1,
        (waitLoop msg rs).freeCalls, (waitLoop msg rs).sleeps + 1⟩
    else if r.status = JobStatus.COMPLETE then
      ⟨.ret r.item, 1, 1, 0⟩
    else
      ⟨.exn (msg ++ (" job error code= ").toList ++ natToDec r.status), 1, 0, 0⟩

/-- `TestProxy.wait_for_it(msg, job, item)`: a falsy job handle (python
`if not job:` — `None` or the empty string) returns `item` at once with no
`job_status` or `job_free` calls; otherwise the polling loop runs. -/
def wait_for_it {α : Type} (msg : Str) (job : Option Str) (item : α)
    (script : List (JobResp α)) : WaitRes α :=
  match job with
  | none => ⟨.ret item, 0, 0, 0⟩
  | some j => if j = [] then ⟨.ret item, 0, 0, 0⟩ else waitLoop msg script

/-- A run of `INPROGRESS` replies only polls and sleeps, once per reply. -/
theorem waitLoop_prefix {α : Type} (msg : Str) :
    ∀ (pre : List (JobResp α)) (rest : List (JobResp α)),
    (∀ r ∈ pre, r.status = JobStatus.INPROGRESS) →
    waitLoop msg (pre ++ rest)
      = ⟨(waitLoop msg rest).out, (waitLoop msg rest).statusCalls + pre.length,
         (waitLoop msg rest).freeCalls, (waitLoop msg rest).sleeps + pre.length⟩ := by
  intro pre
  induction pre with
  | nil => intro rest _; simp
  | cons r rs ih =>
    intro rest hpre
    have hr : r.status = JobStatus.INPROGRESS := hpre r (by simp)
    have htail := ih rest (fun q hq => hpre q (by simp [hq]))
    have hstep : waitLoop msg (r :: (rs ++ rest))
        = ⟨(waitLoop msg (rs ++ rest)).out, (waitLoop msg (rs ++ rest)).statusCalls + 1,
           (waitLoop msg (rs ++ rest)).freeCalls, (waitLoop msg (rs ++ rest)).sleeps + 1⟩ := by
      simp only [waitLoop, if_pos hr]
    rw [List.cons_append, hstep, htail]
    simp only [WaitRes.mk.injEq, List.length_cons, true_and, and_true, eq_self_iff_true]
    exact ⟨by omega, by omega⟩

/-! ### The hpsa command helper (`src/plugin/hpsa/utils.py`)

`subprocess.Popen` is the python standard library; a completed child process
is its observable effect: the full stdout text (the code joins the iterated
lines back together with `"".join`, reconstituting the stream), the full
stderr text, and the exit code `wait()` returns. -/

/-- A completed child process, as `cmd_exec` observes it. -/
structure ProcResult where
  stdout : Str
  stderr : Str
  wait : Int

/-- The fields `ExecError.__init__` stores. -/
structure ExecError where
  cmd : Str
  errno : Int
  stdout : Str
  stderr : Str
deriving DecidableEq

/-- `" ".join(cmds)`. -/
def joinSpace : List Str → Str
  | [] => []
  | [c] => c
  | c :: cs => c ++ ' ' :: joinSpace cs

/-- `cmd_exec(cmds)`: strip both captured texts; a nonzero exit code raises
`ExecError(" ".join(cmds), errno, str_stdout, str_stderr)`, otherwise the
stripped stdout is returned. -/
def cmd_exec (cmds : List Str) (proc : ProcResult) : Except ExecError Str :=
  if proc.wait ≠ 0 then
    .error ⟨joinSpace cmds, proc.wait, pyStrip proc.stdout, pyStrip proc.stderr⟩
  else .ok (pyStrip proc.stdout)

/-! ### The claims -/

/-- C1 counterexample: with a job handle present and `job_status` reporting
`ERROR`, `wait_for_it` raises a generic `Exception` carrying the method name
and numeric status, and issues zero `job_free` calls — not the one `job_free`
the claim requires on both terminal paths. -/
theorem c1_error_path_counterexample :
    (wait_for_it (("volume_create").toList) (some (("j1").toList)) (0 : Nat)
        [⟨JobStatus.ERROR, 0, 0⟩]).freeCalls ≠ 1
    ∧ wait_for_it (("volume_create").toList) (some (("j1").toList)) (0 : Nat)
        [⟨JobStatus.ERROR, 0, 0⟩]
      = ⟨WaitOut.exn (("volume_create job error code= 4").toList), 1, 0, 0⟩ :=
  ⟨by decide, by decide⟩

/-- C1 (amended): in the client polling loop `wait_for_it`, with a non-null
job handle, after finitely many `INPROGRESS` polls a `COMPLETE` status makes
the loop call `job_free` exactly once and return the carried result, while
any other terminal status makes it raise
`Exception(msg + " job error code= " + str(s))` WITHOUT freeing the job
(zero `job_free` calls on the error path). -/
theorem c1_polling_terminal_behaviour {α : Type} (msg j : Str) (hj : j ≠ [])
    (item res other : α) (p q : Nat) (pre : List (JobResp α))
    (hpre : ∀ r ∈ pre, r.status = JobStatus.INPROGRESS)
    (tail : List (JobResp α)) (s : Nat)
    (hs1 : s ≠ JobStatus.INPROGRESS) (hs2 : s ≠ JobStatus.COMPLETE) :
    wait_for_it msg (some j) item (pre ++ ⟨JobStatus.COMPLETE, p, res⟩ :: tail)
      = ⟨WaitOut.ret res, pre.length + 1, 1, pre.length⟩
    ∧ wait_for_it msg (some j) item (pre ++ ⟨s, q, other⟩ :: tail)
      = ⟨WaitOut.exn (msg ++ (" job error code= ").toList ++ natToDec s),
          pre.length + 1, 0, pre.length⟩ := by
  have hwc : waitLoop msg (⟨JobStatus.COMPLETE, p, res⟩ :: tail)
      = (⟨WaitOut.ret res, 1, 1, 0⟩ : WaitRes α) := rfl
  have hwe : waitLoop msg (⟨s, q, other⟩ :: tail)
      = (⟨WaitOut.exn (msg ++ (" job error code= ").toList ++ natToDec s),
          1, 0, 0⟩ : WaitRes α) := by
    simp only [waitLoop, if_neg hs1, if_neg hs2]
  constructor
  · simp only [wait_for_it, if_neg hj, waitLoop_prefix msg pre _ hpre, hwc,
      WaitRes.mk.injEq, true_and, and_true]
    omega
  · simp only [wait_for_it, if_neg hj, waitLoop_prefix msg pre _ hpre, hwe,
      WaitRes.mk.injEq, true_and, and_true]
    omega

theorem c1_polling_terminal_behaviour_witness :
    wait_for_it (("fs_create").toList) (some (("job7").toList)) (0 : Nat)
        ([⟨JobStatus.INPROGRESS, 50, 0⟩] ++ [⟨JobStatus.COMPLETE, 100, 9⟩])
      = ⟨WaitOut.ret 9, 2, 1, 1⟩
    ∧ wait_for_it (("fs_create").toList) (some (("job7").toList)) (0 : Nat)
        ([⟨JobStatus.INPROGRESS, 50, 0⟩] ++ [⟨JobStatus.ERROR, 50, 0⟩])
      = ⟨WaitOut.exn (("fs_create job error code= 4").toList), 2, 0, 1⟩ := by
  have h := c1_polling_terminal_behaviour (("fs_create").toList) (("job7").toList)
    (by decide) (0 : Nat) 9 0 100 50 [⟨JobStatus.INPROGRESS, 50, 0⟩]
    (by decide) [] JobStatus.ERROR (by decide) (by decide)
  exact ⟨h.1, h.2⟩

/-- C2: the default method bodies of `_iplugin.py` do not all raise
`NO_SUPPORT`: `INetworkAttachedStorage.fs` is `pass`, so it returns `None`
for every argument, while every other non-abstract method of the three
interface classes raises `LsmError(NO_SUPPORT, "Not supported")`
unconditionally. -/
theorem c2_fs_default_returns_none :
    defaultImpl PluginOp.fs = MethodBehavior.returnsNone
    ∧ ∀ op : PluginOp, op ≠ PluginOp.fs →
        defaultImpl op = MethodBehavior.raises NO_SUPPORT (("Not supported").toList) := by
  refine ⟨rfl, ?_⟩
  intro op hop
  cases op <;> first | rfl | exact absurd rfl hop

theorem c2_fs_default_returns_none_witness :
    defaultImpl PluginOp.volumes
      = MethodBehavior.raises NO_SUPPORT (("Not supported").toList) :=
  c2_fs_default_returns_none.2 PluginOp.volumes (by decide)

/-- C3: frame round-trip — for every request (method, id 100, params) whose
encoded payload fits the 10-digit header, and for every way the written bytes
are chunked into partial reads (`st` is any stream whose concatenation is
exactly what `send_req` wrote), `read_req` fully buffers the frame and
decodes a message whose `method`, `id` and `params` entries are exactly the
originals. -/
theorem c3_frame_roundtrip (method : Str) (params : Json) (st : Stream)
    (hne : ∀ c ∈ st, c ≠ [])
    (hlen : (dumps (Transport.reqMsg method params)).length < 10 ^ 10)
    (hwire : Transport.send_req method params = .ok (joinS st)) :
    ∃ st2 ms, Transport.read_req st = .ok (some (Json.obj ms), st2)
      ∧ getKey ms (("method").toList) = some (Json.str method)
      ∧ getKey ms (("id").toList) = some (Json.num 100)
      ∧ getKey ms (("params").toList) = some params := by
  rw [Transport.send_req_eq] at hwire
  injection hwire with hw
  obtain ⟨st2, hr, _, _⟩ := Transport.read_req_ok (Transport.reqMsg method params) [] st hne
    hlen (by rw [List.append_nil]; exact hw.symm)
  exact ⟨st2, _, hr, rfl, rfl, rfl⟩

theorem c3_frame_roundtrip_witness :
    ∃ st2 ms, Transport.read_req
        [zfill10 (dumps (Transport.reqMsg (("test").toList) (Json.str ((" ").toList)))).length
          ++ dumps (Transport.reqMsg (("test").toList) (Json.str ((" ").toList)))]
      = .ok (some (Json.obj ms), st2)
      ∧ getKey ms (("method").toList) = some (Json.str (("test").toList))
      ∧ getKey ms (("id").toList) = some (Json.num 100)
      ∧ getKey ms (("params").toList) = some (Json.str ((" ").toList)) :=
  c3_frame_roundtrip (("test").toList) (Json.str ((" ").toList)) _ (by decide) (by decide)
    (by rw [Transport.send_req_eq]; simp [joinS])

/-- C4: fault fidelity — transmitting a fault with `send_error(id, c, m, d)`
makes the peer's `read_resp` raise `LsmError` whose `code` is exactly `c` and
whose `message` is exactly `m` (any string, ASCII or not); conversely a
message carrying a `result` key makes `read_resp` return the `(result, id)`
pair without raising.  Both hold over any chunking of the written bytes. -/
theorem c4_fault_fidelity (id c : Int) (m : Str) (d : Json) (result : Json) (idr : Int)
    (st st' : Stream)
    (hne : ∀ ch ∈ st, ch ≠ []) (hne' : ∀ ch ∈ st', ch ≠ [])
    (hlen : (dumps (Transport.errMsg id c m d)).length < 10 ^ 10)
    (hlen' : (dumps (Transport.respMsg result idr)).length < 10 ^ 10)
    (hwire : Transport.send_error id c m d = .ok (joinS st))
    (hwire' : Transport.send_resp result idr = .ok (joinS st')) :
    Transport.read_resp st = .error (PyErr.lsmError (Json.num c) (Json.str m) d)
    ∧ ∃ st2, Transport.read_resp st' = .ok ((result, Json.num idr), st2) := by
  rw [Transport.send_error_eq] at hwire
  injection hwire with hw
  rw [Transport.send_resp_eq] at hwire'
  injection hwire' with hw'
  obtain ⟨st2, hr, _, _⟩ := Transport.read_resp_of (Transport.errMsg id c m d) [] st hne
    hlen (by rw [List.append_nil]; exact hw.symm)
  obtain ⟨st2', hr', _, _⟩ := Transport.read_resp_of (Transport.respMsg result idr) [] st' hne'
    hlen' (by rw [List.append_nil]; exact hw'.symm)
  rw [Transport.dispatchResp_errMsg] at hr
  rw [Transport.dispatchResp_respMsg] at hr'
  exact ⟨hr, st2', hr'⟩

theorem c4_fault_fidelity_witness :
    Transport.read_resp
        [zfill10 (dumps (Transport.errMsg 100 100
            (("T\u00e9st \u00510420").toList) Json.null)).length
          ++ dumps (Transport.errMsg 100 100
            (("T\u00e9st \u00510420").toList) Json.null)]
      = .error (PyErr.lsmError (Json.num 100)
          (Json.str (("T\u00e9st \u00510420").toList)) Json.null)
    ∧ ∃ st2, Transport.read_resp
        [zfill10 (dumps (Transport.respMsg (Json.num 7) 100)).length
          ++ dumps (Transport.respMsg (Json.num 7) 100)]
      = .ok ((Json.num 7, Json.num 100), st2) :=
  c4_fault_fidelity 100 100 (("T\u00e9st \u00510420").toList) Json.null (Json.num 7) 100
    _ _ (by decide) (by decide) (by decide) (by decide)
    (by rw [Transport.send_error_eq]; simp [joinS])
    (by rw [Transport.send_resp_eq]; simp [joinS])

/-- C5: EOF distinction — when the stream ends before the 10 header bytes, or
before the `N ≥ 1` declared body bytes, are fully obtained, the receiver
fails with `SocketEOF` (never `ValueError` or a decode error). -/
theorem c5_eof_distinction (st st' : Stream) (N : Nat) (b : Str)
    (hne : ∀ c ∈ st, c ≠ []) (hne' : ∀ c ∈ st', c ≠ [])
    (hshort : (joinS st).length < 10)
    (hN : 1 ≤ N) (hN2 : N < 10 ^ 10) (hblen : b.length < N)
    (hjoin : joinS st' = zfill10 N ++ b) :
    Transport.recvMsg st = .error PyErr.socketEOF
    ∧ Transport.recvMsg st' = .error PyErr.socketEOF :=
  ⟨Transport.recvMsg_eof_header st hne hshort,
   Transport.recvMsg_eof_body N b st' hne' hN hN2 hblen hjoin⟩

theorem c5_eof_distinction_witness :
    Transport.recvMsg [("abc").toList] = .error PyErr.socketEOF
    ∧ Transport.recvMsg [zfill10 3 ++ ("x").toList] = .error PyErr.socketEOF :=
  c5_eof_distinction [("abc").toList] [zfill10 3 ++ ("x").toList] 3 (("x").toList)
    (by decide) (by decide) (by decide) (by decide) (by decide) (by decide) (by decide)

/-- C6 counterexample: a message of `10^10` bytes gets a header of eleven
characters (`str(10^10)` is longer than the zfill width, and `zfill` never
truncates), so the header is not always exactly 10 characters. -/
theorem c6_padding_counterexample :
    Transport.sendMsg (some (List.replicate (10 ^ 10) 'a'))
      = .ok (('1' :: List.replicate 10 '0') ++ List.replicate (10 ^ 10) 'a')
    ∧ ('1' :: List.replicate 10 '0').length ≠ 10 := by
  constructor
  · simp only [Transport.sendMsg]
    rw [if_neg (by rw [List.length_replicate]; omega), List.length_replicate,
      show zfill10 (10 ^ 10) = '1' :: List.replicate 10 '0' by decide]
  · decide

/-- C6 (amended): for every non-empty message shorter than `10^10` bytes,
`__sendMsg` performs one write of exactly the 10-character left-zero-padded
decimal length followed immediately by the message (the header is all ASCII
digits and reads back as the length); an empty or `None` message raises
`ValueError` and writes nothing.  (Messages of `10^10` bytes or more get the
longer unpadded `str(len)` header instead — see the counterexample.) -/
theorem c6_send_frame (m : Str) (hm : 1 ≤ m.length) (hlen : m.length < 10 ^ 10) :
    Transport.sendMsg (some m) = .ok (zfill10 m.length ++ m)
    ∧ (zfill10 m.length).length = 10
    ∧ (∀ c ∈ zfill10 m.length, isDig c = true)
    ∧ decVal (zfill10 m.length) = m.length
    ∧ Transport.sendMsg none = .error PyErr.valueError
    ∧ Transport.sendMsg (some []) = .error PyErr.valueError := by
  refine ⟨Transport.sendMsg_some m hm, zfill10_length hlen, zfill10_all_dig _, ?_, rfl, rfl⟩
  unfold zfill10
  rw [decVal_replicate_zero, decVal_natToDec]

theorem c6_send_frame_witness :
    Transport.sendMsg (some (("hello").toList))
      = .ok (zfill10 (("hello").toList).length ++ ("hello").toList)
    ∧ (zfill10 (("hello").toList).length).length = 10
    ∧ (∀ c ∈ zfill10 (("hello").toList).length, isDig c = true)
    ∧ decVal (zfill10 (("hello").toList).length) = (("hello").toList).length
    ∧ Transport.sendMsg none = .error PyErr.valueError
    ∧ Transport.sendMsg (some []) = .error PyErr.valueError :=
  c6_send_frame (("hello").toList) (by decide) (by decide)

/-- C7 counterexample: a reply carrying id `101` instead of `100` makes the
client-side `rpc` raise `AssertionError` (the `assert id == 100` in
`Transport.rpc`) instead of returning the carried result — the id IS
validated. -/
theorem c7_mismatched_id_counterexample :
    Transport.rpc (("m").toList) Json.null
        [zfill10 (dumps (Transport.respMsg Json.null 101)).length
          ++ dumps (Transport.respMsg Json.null 101)]
      = .error PyErr.assertionError := by
  obtain ⟨st2, hresp, _, _⟩ := Transport.read_resp_of (Transport.respMsg Json.null 101) []
    [zfill10 (dumps (Transport.respMsg Json.null 101)).length
      ++ dumps (Transport.respMsg Json.null 101)] (by decide) (by decide) (by decide)
  rw [Transport.dispatchResp_respMsg] at hresp
  unfold Transport.rpc
  rw [Transport.send_req_eq, hresp]
  exact rfl

/-- C7 (amended): `read_resp` itself performs no id validation — it returns
the carried result and id verbatim — but `Transport.rpc` then executes
`assert id == 100`, so a reply whose id differs from 100 makes `rpc` raise
`AssertionError` rather than return the result; only an id of exactly 100
lets the result through. -/
theorem c7_id_handling (result : Json) (idr : Int) (st : Stream)
    (hne : ∀ c ∈ st, c ≠ [])
    (hlen : (dumps (Transport.respMsg result idr)).length < 10 ^ 10)
    (hwire : Transport.send_resp result idr = .ok (joinS st)) :
    (∃ st2, Transport.read_resp st = .ok ((result, Json.num idr), st2))
    ∧ (idr ≠ 100 → ∀ method args,
        Transport.rpc method args st = .error PyErr.assertionError)
    ∧ (idr = 100 → ∀ method args, ∃ st2,
        Transport.rpc method args st
          = .ok ((zfill10 (dumps (Transport.reqMsg method args)).length
              ++ dumps (Transport.reqMsg method args), result), st2)) := by
  rw [Transport.send_resp_eq] at hwire
  injection hwire with hw
  obtain ⟨st2, hr, _, _⟩ := Transport.read_resp_of (Transport.respMsg result idr) [] st hne
    hlen (by rw [List.append_nil]; exact hw.symm)
  rw [Transport.dispatchResp_respMsg] at hr
  have hre : Transport.read_resp st = .ok ((result, Json.num idr), st2) := hr
  refine ⟨⟨st2, hre⟩, ?_, ?_⟩
  · intro hne100 method args
    unfold Transport.rpc
    rw [Transport.send_req_eq, hre]
    show (if idr = 100 then
        (.ok ((zfill10 (dumps (Transport.reqMsg method args)).length
            ++ dumps (Transport.reqMsg method args), result), st2)
          : Except PyErr ((Str × Json) × Stream))
      else .error .assertionError) = .error PyErr.assertionError
    rw [if_neg hne100]
  · intro h100 method args
    refine ⟨st2, ?_⟩
    unfold Transport.rpc
    rw [Transport.send_req_eq, hre]
    show (if idr = 100 then
        (.ok ((zfill10 (dumps (Transport.reqMsg method args)).length
            ++ dumps (Transport.reqMsg method args), result), st2)
          : Except PyErr ((Str × Json) × Stream))
      else .error .assertionError) = _
    rw [if_pos h100]

theorem c7_id_handling_witness :
    (∃ st2, Transport.read_resp
        [zfill10 (dumps (Transport.respMsg (Json.num 3) 101)).length
          ++ dumps (Transport.respMsg (Json.num 3) 101)]
      = .ok ((Json.num 3, Json.num 101), st2))
    ∧ Transport.rpc (("q").toList) Json.null
        [zfill10 (dumps (Transport.respMsg (Json.num 3) 101)).length
          ++ dumps (Transport.respMsg (Json.num 3) 101)]
      = .error PyErr.assertionError := by
  have h := c7_id_handling (Json.num 3) 101
    [zfill10 (dumps (Transport.respMsg (Json.num 3) 101)).length
      ++ dumps (Transport.respMsg (Json.num 3) 101)]
    (by decide) (by decide) (by rw [Transport.send_resp_eq]; simp [joinS])
  exact ⟨h.1, h.2.1 (by decide) (("q").toList) Json.null⟩

/-- C8: polling terminates — with a job handle, a reply script of finitely
many `INPROGRESS` results followed by `COMPLETE` with a carried result makes
`wait_for_it` return that result having issued exactly one `job_free` (and
one `job_status` per script entry consumed); with no job handle it returns
the item immediately with zero `job_status` and zero `job_free` calls. -/
theorem c8_polling_terminates {α : Type} (msg j : Str) (hj : j ≠ []) (item res : α)
    (p : Nat) (pre : List (JobResp α))
    (hpre : ∀ r ∈ pre, r.status = JobStatus.INPROGRESS)
    (tail anyScript : List (JobResp α)) :
    wait_for_it msg (some j) item (pre ++ ⟨JobStatus.COMPLETE, p, res⟩ :: tail)
      = ⟨WaitOut.ret res, pre.length + 1, 1, pre.length⟩
    ∧ wait_for_it msg none item anyScript = ⟨WaitOut.ret item, 0, 0, 0⟩ := by
  constructor
  · have hwc : waitLoop msg (⟨JobStatus.COMPLETE, p, res⟩ :: tail)
        = (⟨WaitOut.ret res, 1, 1, 0⟩ : WaitRes α) := rfl
    simp only [wait_for_it, if_neg hj, waitLoop_prefix msg pre _ hpre, hwc,
      WaitRes.mk.injEq, true_and, and_true]
    omega
  · rfl

theorem c8_polling_terminates_witness :
    wait_for_it (("volume_resize").toList) (some (("j2").toList)) (0 : Nat)
        ([⟨JobStatus.INPROGRESS, 10, 0⟩, ⟨JobStatus.INPROGRESS, 60, 0⟩]
          ++ [⟨JobStatus.COMPLETE, 100, 5⟩])
      = ⟨WaitOut.ret 5, 3, 1, 2⟩
    ∧ wait_for_it (("volume_resize").toList) none (7 : Nat) []
      = ⟨WaitOut.ret 7, 0, 0, 0⟩ :=
  c8_polling_terminates (("volume_resize").toList) (("j2").toList) (by decide) 7 5 100
    [⟨JobStatus.INPROGRESS, 10, 0⟩, ⟨JobStatus.INPROGRESS, 60, 0⟩] (by decide) [] []

/-- C9: a received frame whose 10-digit header reads zero makes `__recvMsg`
call `__readAll(0)`, which raises `ValueError` before touching the stream, so
the zero-length payload neither reaches the json decoder nor is reported as
`SocketEOF`; `read_req` surfaces the same `ValueError`. -/
theorem c9_zero_length_header (rest : Str) (st : Stream) (hne : ∀ c ∈ st, c ≠ [])
    (hjoin : joinS st = List.replicate 10 '0' ++ rest) :
    Transport.recvMsg st = .error PyErr.valueError
    ∧ Transport.read_req st = .error PyErr.valueError := by
  have h := Transport.recvMsg_zero_header rest st hne hjoin
  refine ⟨h, ?_⟩
  unfold Transport.read_req
  rw [h]

theorem c9_zero_length_header_witness :
    Transport.recvMsg [List.replicate 10 '0' ++ ("xy").toList]
      = .error PyErr.valueError
    ∧ Transport.read_req [List.replicate 10 '0' ++ ("xy").toList]
      = .error PyErr.valueError :=
  c9_zero_length_header (("xy").toList) [List.replicate 10 '0' ++ ("xy").toList]
    (by decide) (by decide)

/-- C10: `cmd_exec` returns the whitespace-stripped stdout exactly when the
exit code is zero; any nonzero exit code raises `ExecError` carrying the
space-joined command string, the exit code, and the stripped stdout and
stderr texts. -/
theorem c10_cmd_exec_contract (cmds : List Str) (proc : ProcResult) :
    (proc.wait = 0 → cmd_exec cmds proc = .ok (pyStrip proc.stdout))
    ∧ (proc.wait ≠ 0 → cmd_exec cmds proc
        = .error ⟨joinSpace cmds, proc.wait, pyStrip proc.stdout, pyStrip proc.stderr⟩) := by
  constructor
  · intro h
    unfold cmd_exec
    rw [if_neg (by simp [h])]
  · intro h
    unfold cmd_exec
    rw [if_pos h]

theorem c10_cmd_exec_contract_witness :
    cmd_exec [("hpssacli").toList, ("ctrl").toList] ⟨(" out ").toList, [], 0⟩
      = .ok (("out").toList)
    ∧ cmd_exec [("hpssacli").toList, ("ctrl").toList] ⟨[], (" boom ").toList, 2⟩
      = .error ⟨("hpssacli ctrl").toList, 2, [], ("boom").toList⟩ := by
  constructor
  · have h := (c10_cmd_exec_contract [("hpssacli").toList, ("ctrl").toList]
      ⟨(" out ").toList, [], 0⟩).1 rfl
    rw [h]
    rfl
  · have h := (c10_cmd_exec_contract [("hpssacli").toList, ("ctrl").toList]
      ⟨[], (" boom ").toList, 2⟩).2 (by decide)
    rw [h]
    rfl

end Lsm
